import Mathlib

/-!
# Shallow embedding of the `uav_deconflict` core

This file embeds the algorithmic core of the repository — trajectory
construction (`src/deconflict/traject.py`), pairwise spatial checking
(`src/deconflict/spatial.py`) and spatio-temporal conflict detection
(`src/deconflict/temporal.py`) — as executable Lean definitions over ℚ,
and proves the specification claims about them.

Modelling conventions:

* Machine floats become exact rationals (ℚ); `datetime` values become
  their numeric timestamps (ℚ seconds), so `datetime.timestamp()` is the
  identity in the embedding.
* The source compares Euclidean distances (`np.linalg.norm`) against a
  buffer.  A Euclidean norm of rational coordinates is irrational in
  general, so the embedding carries *squared* distances and renders the
  source's strict test `dist < buffer` as the equivalent
  `0 < buffer ∧ dist² < buffer²` (see `dist_lt_iff_sq_lt_sq` below for
  the justification: both sides agree for every nonnegative `dist`).
* `_compute_times_from_window` consumes per-segment Euclidean lengths
  only through their sum and cumulative sums; those lengths are
  irrational in general, so the embedding abstracts `np.linalg.norm` of
  a difference vector as a parameter `segNorm` assumed nonnegative and
  definite (`IsNormLike`), exactly the two properties of the Euclidean
  norm the control flow depends on.  Concrete instantiations in
  witnesses use a computable norm agreeing with the Euclidean one on the
  inputs involved.
* Python exceptions become `Option`-valued results (`none` = raises).
* `np.interp`, `np.linspace`, `np.arange`, `np.union1d`, `np.argmin`
  are embedded by `npInterp`, `linspace`, `arange`, `union1d`,
  `argminIdx` with their exact-arithmetic semantics.
-/

/- Batteries marks the arithmetic of `Rat` `@[irreducible]`, which blocks
`decide`-based evaluation of the embedding on concrete inputs; restore the
default reducibility locally so witnesses can be checked by computation. -/
attribute [local semireducible] Rat.add Rat.mul Rat.sub Rat.inv

namespace UavDeconflict

/-- A 3D position `[x, y, z]` in meters, as a rational triple. -/
abbrev Vec3 := ℚ × ℚ × ℚ

/-- First coordinate of a position. -/
def Vec3.x (p : Vec3) : ℚ := p.1

/-- Second coordinate of a position. -/
def Vec3.y (p : Vec3) : ℚ := p.2.1

/-- Third coordinate of a position. -/
def Vec3.z (p : Vec3) : ℚ := p.2.2

/-- Componentwise difference of positions (`np.diff` on an `(N,3)` array
acts on consecutive rows with this). -/
def Vec3.sub (p q : Vec3) : Vec3 := (p.1 - q.1, p.2.1 - q.2.1, p.2.2 - q.2.2)

/-- `models.Waypoint`: `x`, `y` required, `z` optional altitude,
`t` optional absolute timestamp (already as ℚ seconds), optional label. -/
structure Waypoint where
  x : ℚ
  y : ℚ
  z : Option ℚ := none
  t : Option ℚ := none
  label : Option String := none
deriving DecidableEq

/-- `traject.Trajectory`: parallel `times` / `positions` sequences plus a
flight id.  The constructor validation of `__post_init__` is modelled by
`Trajectory.mk?` below; a raw `Trajectory.mk` corresponds to a value that
already passed it. -/
structure Trajectory where
  times : List ℚ
  positions : List Vec3
  flight_id : String := "primary"
deriving DecidableEq

/-- The strict-increase test of `__post_init__`
(`not np.any(np.diff(times) <= 0)`), as the boolean scan it is in the
source. -/
def strictlyIncreasing : List ℚ → Bool
  | [] => true
  | [_] => true
  | a :: b :: r => decide (a < b) && strictlyIncreasing (b :: r)

/-- `Trajectory.__post_init__`: fails unless `times` and `positions` have
the same length and `times` is strictly increasing
(`np.any(np.diff(times) <= 0)` check).  The 1D/`(N,3)` shape checks are
enforced by the embedding's types. -/
def Trajectory.mk? (times : List ℚ) (positions : List Vec3)
    (fid : String := "primary") : Option Trajectory :=
  if times.length = positions.length ∧ strictlyIncreasing times = true then
    some ⟨times, positions, fid⟩
  else none

/-- `Trajectory.time_range`: `(times[0], times[-1])`. -/
def Trajectory.time_range (tr : Trajectory) : ℚ × ℚ :=
  (tr.times.headD 0, tr.times.getLastD 0)

/-- `np.interp(t, xp, fp)` on a strictly increasing abscissa list, with
the `(xp, fp)` pairs zipped: clamp to the first/last ordinate outside the
range, piecewise-linear inside.  At an interior node the right segment's
left endpoint is returned, which coincides with the node's ordinate. -/
def npInterp (t : ℚ) : List (ℚ × ℚ) → ℚ
  | [] => 0
  | [(_, v)] => v
  | (t0, v0) :: (t1, v1) :: rest =>
    if t ≤ t0 then v0
    else if t ≤ t1 then v0 + (v1 - v0) * ((t - t0) / (t1 - t0))
    else npInterp t ((t1, v1) :: rest)

/-- The `(time, x-coordinate)` pairs of a trajectory, as fed to
`np.interp`. -/
def Trajectory.xKnots (tr : Trajectory) : List (ℚ × ℚ) :=
  tr.times.zip (tr.positions.map Vec3.x)

/-- The `(time, y-coordinate)` pairs of a trajectory. -/
def Trajectory.yKnots (tr : Trajectory) : List (ℚ × ℚ) :=
  tr.times.zip (tr.positions.map Vec3.y)

/-- The `(time, z-coordinate)` pairs of a trajectory. -/
def Trajectory.zKnots (tr : Trajectory) : List (ℚ × ℚ) :=
  tr.times.zip (tr.positions.map Vec3.z)

/-- `Trajectory.sample_position_at`: clamp to the first position for
`t ≤ times[0]`, to the last for `t ≥ times[-1]`, otherwise interpolate
x, y, z independently with `np.interp`. -/
def Trajectory.sample_position_at (tr : Trajectory) (t : ℚ) : Vec3 :=
  if t ≤ tr.times.headD 0 then tr.positions.headD (0, 0, 0)
  else if tr.times.getLastD 0 ≤ t then tr.positions.getLastD (0, 0, 0)
  else (npInterp t tr.xKnots, npInterp t tr.yKnots, npInterp t tr.zKnots)

/-- `np.linspace(t0, t1, n)` in exact arithmetic: `n` points
`t0 + i·(t1−t0)/(n−1)`; for `n = 1` the single point is `t0` (the rational
convention `q/0 = 0` makes the same formula cover that case), for `n = 0`
the list is empty. -/
def linspace (t0 t1 : ℚ) (n : ℕ) : List ℚ :=
  (List.range n).map
    (fun (i : ℕ) => t0 + ((i : ℚ) * (t1 - t0)) / ((n : ℚ) - 1))

/-- `Trajectory.sample_uniform(dt_s)`: fails for `dt_s ≤ 0` or an
empty/inverted time range; otherwise evaluates
`np.linspace(t0, t1, floor((t1−t0)/dt)+1)` and interpolates each
coordinate over the grid with `np.interp`. -/
def Trajectory.sample_uniform (tr : Trajectory) (dt_s : ℚ) :
    Option (List ℚ × List Vec3) :=
  if dt_s ≤ 0 then none
  else
    let t0 := tr.times.headD 0
    let t1 := tr.times.getLastD 0
    if t1 ≤ t0 then none
    else
      let n : ℕ := (⌊(t1 - t0) / dt_s⌋).toNat + 1
      let grid := linspace t0 t1 n
      some (grid, grid.map (fun t =>
        (npInterp t tr.xKnots, npInterp t tr.yKnots, npInterp t tr.zKnots)))

/-- Squared separation distance between two sampled positions using the
first 2 or all 3 coordinates (`dims = 3 if use_3d else 2` followed by
`np.linalg.norm`, squared). -/
def dist2 (use_3d : Bool) (p q : Vec3) : ℚ :=
  (p.1 - q.1) ^ 2 + (p.2.1 - q.2.1) ^ 2 +
    (if use_3d then (p.2.2 - q.2.2) ^ 2 else 0)

/-- `np.arange(start, stop, step)` for a positive step:
`max 0 ⌈(stop−start)/step⌉` points `start + i·step`.  A nonpositive step
is not used by the embedded call sites; it yields the empty list. -/
def arange (start stop step : ℚ) : List ℚ :=
  if step ≤ 0 then []
  else (List.range (⌈(stop - start) / step⌉).toNat).map
    (fun (i : ℕ) => start + (i : ℚ) * step)

/-- One conflict record as built by `check_spatiotemporal_conflicts`.
The ISO-8601 rendering of the instant and the explanation string are
presentation-only derivatives of `time` / the positions and are not
modelled; `min_distance2` holds the square of the source's
`min_distance_m`. -/
structure Conflict where
  flight_id : String
  time : ℚ
  primary_pos : Vec3
  sim_pos : Vec3
  min_distance2 : ℚ
deriving DecidableEq

/-- Body of the per-intruder loop of `check_spatiotemporal_conflicts`:
compute the overlap window, skip on empty/inverted overlap, build the
`np.arange` grid (skip when empty), sample both trajectories at each grid
instant, and emit one record per instant whose distance violates the
buffer (`dists[idx] < safety_buffer_m`, rendered squared). -/
def conflictsForSim (primary_traj sim_traj : Trajectory)
    (safety_buffer_m dt : ℚ) (use_3d : Bool) : List Conflict :=
  let overlap_start := max primary_traj.time_range.1 sim_traj.time_range.1
  let overlap_end := min primary_traj.time_range.2 sim_traj.time_range.2
  if overlap_end ≤ overlap_start then []
  else
    let t_grid := arange overlap_start overlap_end dt
    if t_grid.isEmpty then []
    else
      t_grid.filterMap (fun t =>
        let p := primary_traj.sample_position_at t
        let s := sim_traj.sample_position_at t
        let d2 := dist2 use_3d p s
        if 0 < safety_buffer_m ∧ d2 < safety_buffer_m ^ 2 then
          some ⟨sim_traj.flight_id, t, p, s, d2⟩
        else none)

/-- `temporal.check_spatiotemporal_conflicts`: append the per-intruder
records in intruder order; status is `"conflict"` iff the list is
non-empty. -/
def check_spatiotemporal_conflicts (primary_traj : Trajectory)
    (sim_trajs : List Trajectory) (safety_buffer_m : ℚ) (dt : ℚ := 1)
    (use_3d : Bool := false) : String × List Conflict :=
  let conflicts :=
    sim_trajs.flatMap (fun s =>
      conflictsForSim primary_traj s safety_buffer_m dt use_3d)
  if conflicts.isEmpty then ("clear", []) else ("conflict", conflicts)

/-- `np.union1d`: sorted list of the distinct values occurring in either
input. -/
def union1d (xs ys : List ℚ) : List ℚ :=
  (List.insertionSort (· ≤ ·) (xs ++ ys)).dedup

/-- Minimum of a list of rationals (`np.min`; 0 on the empty list, which
the source never reaches). -/
def listMin : List ℚ → ℚ
  | [] => 0
  | [x] => x
  | x :: y :: rest => min x (listMin (y :: rest))

/-- `np.argmin`: index of the first occurrence of the minimum. -/
def argminIdx : List ℚ → ℕ
  | [] => 0
  | [_] => 0
  | x :: y :: rest =>
    if x ≤ listMin (y :: rest) then 0 else argminIdx (y :: rest) + 1

/-- The details dictionary returned by `check_spatial_conflict`;
`min_distance2` holds the square of the source's `min_distance_m`. -/
structure SpatialDetails where
  min_distance2 : ℚ
  min_position_A : ℚ × ℚ
  min_position_B : ℚ × ℚ
  t_A_at_min : ℚ
  t_B_at_min : ℚ
  conflict_detected : Bool
deriving DecidableEq

/-- `spatial.check_spatial_conflict`: sample both trajectories on a
uniform 1-second grid, take the union of the two grids, resample both
via `sample_position_at` keeping only `(x, y)`, compute planar distances
(kept squared), locate the first minimizing index, and flag a conflict
when the minimum distance is strictly below the buffer (rendered
squared).  The `use_3d` parameter is accepted as in the source signature;
the source body never reads it. -/
def check_spatial_conflict (traj_A traj_B : Trajectory) (buffer_m : ℚ)
    (use_3d : Bool := false) : Option (Bool × SpatialDetails) :=
  match traj_A.sample_uniform 1, traj_B.sample_uniform 1 with
  | some (times_A, _), some (times_B, _) =>
    let common_times := union1d times_A times_B
    let pos_A := common_times.map (fun t =>
      let p := traj_A.sample_position_at t
      (p.1, p.2.1))
    let pos_B := common_times.map (fun t =>
      let p := traj_B.sample_position_at t
      (p.1, p.2.1))
    let distances2 := (pos_A.zip pos_B).map (fun pq =>
      (pq.1.1 - pq.2.1) ^ 2 + (pq.1.2 - pq.2.2) ^ 2)
    let min_dist2 := listMin distances2
    let min_dist_idx := argminIdx distances2
    let t_at_min := common_times.getD min_dist_idx 0
    let conflict_detected : Bool := decide (0 < buffer_m ∧ min_dist2 < buffer_m ^ 2)
    some (conflict_detected,
      { min_distance2 := min_dist2
        min_position_A := pos_A.getD min_dist_idx (0, 0)
        min_position_B := pos_B.getD min_dist_idx (0, 0)
        t_A_at_min := t_at_min
        t_B_at_min := t_at_min
        conflict_detected := conflict_detected })
  | _, _ => none

/-- `traject._waypoints_to_positions`: materialize `(x, y, z)` rows with
a missing `z` defaulted to 0. -/
def waypoints_to_positions (waypoints : List Waypoint) : List Vec3 :=
  waypoints.map (fun wp => (wp.x, wp.y, wp.z.getD 0))

/-- The two properties of `np.linalg.norm` (of a difference vector) that
`_compute_times_from_window` relies on: nonnegativity and definiteness. -/
def IsNormLike (segNorm : Vec3 → ℚ) : Prop :=
  (∀ v, 0 ≤ segNorm v) ∧ ∀ v, segNorm v = 0 ↔ v = ((0 : ℚ), (0 : ℚ), (0 : ℚ))

/-- Consecutive-segment difference vectors of a position list
(`np.diff(positions, axis=0)`). -/
def segDiffs (positions : List Vec3) : List Vec3 :=
  (positions.zip positions.tail).map (fun pq => Vec3.sub pq.2 pq.1)

/-- `traject._compute_times_from_window`, with the Euclidean segment
length `np.linalg.norm` abstracted as `segNorm` (see `IsNormLike`):
positive-duration check, proportional-to-cumulative-distance times, the
all-coincident fallback to `np.linspace`, and the average-speed check
against `max_speed_mps + 1e-6`. -/
def compute_times_from_window (segNorm : Vec3 → ℚ) (positions : List Vec3)
    (mission_window : ℚ × ℚ) (max_speed_mps : Option ℚ) :
    Option (List ℚ) :=
  let duration_s := mission_window.2 - mission_window.1
  if duration_s ≤ 0 then none
  else
    let seg_lengths := (segDiffs positions).map segNorm
    let total_dist := seg_lengths.sum
    if total_dist ≤ 0 then
      some (linspace mission_window.1 mission_window.2 positions.length)
    else
      let required_speed := total_dist / duration_s
      let speedOk : Bool :=
        match max_speed_mps with
        | some m => decide (required_speed ≤ m + 1 / 1000000)
        | none => true
      if speedOk then
        let cum_dist := List.scanl (· + ·) 0 seg_lengths
        let fractions := cum_dist.map (· / total_dist)
        some (fractions.map (fun f => mission_window.1 + f * duration_s))
      else none

/-- `traject.interpolate_from_waypoints`, with `np.linalg.norm`
abstracted as `segNorm`: method and arity checks, the
all-or-none timestamp rule selecting absolute-time mode
(times are exactly the waypoints' timestamps) versus window-derived mode
(`compute_times_from_window`), then `Trajectory` construction with its
validation. -/
def interpolate_from_waypoints (segNorm : Vec3 → ℚ)
    (waypoints : List Waypoint) (method : String := "linear")
    (mission_window : Option (ℚ × ℚ) := none)
    (max_speed_mps : Option ℚ := none) (flight_id : String := "primary") :
    Option Trajectory :=
  if method ≠ "linear" then none
  else if waypoints.length < 2 then none
  else
    let positions := waypoints_to_positions waypoints
    if waypoints.any (fun wp => wp.t.isSome) then
      if ¬ waypoints.all (fun wp => wp.t.isSome) then none
      else
        Trajectory.mk? (waypoints.map (fun wp => wp.t.getD 0)) positions
          flight_id
    else
      match mission_window with
      | none => none
      | some mw =>
        match compute_times_from_window segNorm positions mw max_speed_mps with
        | none => none
        | some times => Trajectory.mk? times positions flight_id

/-- A computable norm-like function used to instantiate `segNorm` in
witnesses: the ℓ¹ norm.  It satisfies `IsNormLike` and agrees with the
Euclidean norm on axis-aligned difference vectors, which is all the
concrete witness inputs produce. -/
def l1Norm (v : Vec3) : ℚ := |v.1| + |v.2.1| + |v.2.2|

/-- The fixed-step sample grid `check_spatiotemporal_conflicts` builds
over the temporal overlap of the primary and one intruder. -/
def overlapGrid (primary_traj sim_traj : Trajectory) (dt : ℚ) : List ℚ :=
  arange (max primary_traj.time_range.1 sim_traj.time_range.1)
    (min primary_traj.time_range.2 sim_traj.time_range.2) dt

/-- Squared sampled separation of primary and intruder at one instant. -/
def sampledDist2 (primary_traj sim_traj : Trajectory) (use_3d : Bool)
    (t : ℚ) : ℚ :=
  dist2 use_3d (primary_traj.sample_position_at t)
    (sim_traj.sample_position_at t)

/-- The detector's per-instant violation condition,
`dists[idx] < safety_buffer_m` in its squared rendering. -/
def violates (primary_traj sim_traj : Trajectory) (safety_buffer_m : ℚ)
    (use_3d : Bool) (t : ℚ) : Prop :=
  0 < safety_buffer_m ∧
    sampledDist2 primary_traj sim_traj use_3d t < safety_buffer_m ^ 2

instance (primary_traj sim_traj : Trajectory) (safety_buffer_m : ℚ)
    (use_3d : Bool) (t : ℚ) :
    Decidable (violates primary_traj sim_traj safety_buffer_m use_3d t) :=
  inferInstanceAs (Decidable (_ ∧ _))

/-- The record `check_spatiotemporal_conflicts` appends for one violating
instant. -/
def conflictRecord (primary_traj sim_traj : Trajectory) (use_3d : Bool)
    (t : ℚ) : Conflict :=
  ⟨sim_traj.flight_id, t, primary_traj.sample_position_at t,
    sim_traj.sample_position_at t, sampledDist2 primary_traj sim_traj use_3d t⟩

/-- The uniform 1-second grid `check_spatial_conflict` samples each
trajectory on (the time grid of `sample_uniform(1.0)`). -/
def uniformGrid1 (tr : Trajectory) : List ℚ :=
  linspace (tr.times.headD 0) (tr.times.getLastD 0)
    ((⌊(tr.times.getLastD 0 - tr.times.headD 0) / 1⌋).toNat + 1)

/-- The comparison instants of `check_spatial_conflict`: the union of
the two 1-second grids. -/
def commonTimes (traj_A traj_B : Trajectory) : List ℚ :=
  union1d (uniformGrid1 traj_A) (uniformGrid1 traj_B)

/-- The planar `(x, y)` sample a trajectory contributes to
`check_spatial_conflict` at one instant. -/
def planarAt (tr : Trajectory) (t : ℚ) : ℚ × ℚ :=
  ((tr.sample_position_at t).1, (tr.sample_position_at t).2.1)

/-- Squared planar separation of two trajectories at one instant, the
quantity `check_spatial_conflict` minimizes. -/
def planarDist2 (traj_A traj_B : Trajectory) (t : ℚ) : ℚ :=
  ((planarAt traj_A t).1 - (planarAt traj_B t).1) ^ 2 +
    ((planarAt traj_A t).2 - (planarAt traj_B t).2) ^ 2

/-! ### Concrete fixtures for witnesses and counterexamples -/

/-- A two-point trajectory spanning one second. -/
def sampleTraj : Trajectory := ⟨[0, 1], [(0, 0, 0), (1, 2, 3)], "primary"⟩

/-- Primary: straight flight from the origin to `(10,0,0)` over `[0,10]`. -/
def primaryTraj : Trajectory := ⟨[0, 10], [(0, 0, 0), (10, 0, 0)], "primary"⟩

/-- Intruder hovering at the origin over `[0, 1/2]`, a window shorter
than one sampling step. -/
def shortIntruder : Trajectory :=
  ⟨[0, 1/2], [(0, 0, 0), (0, 0, 0)], "intruder"⟩

/-- Intruder crossing the primary's path at `(5,0,0)` but only during
`[20, 30]`, after the primary has landed. -/
def lateIntruder : Trajectory :=
  ⟨[20, 30], [(5, -5, 0), (5, 5, 0)], "intruder"⟩

/-- Intruder crossing the primary's path at `(5,0,0)` at time 5, inside
the shared `[0,10]` window. -/
def crossIntruder : Trajectory :=
  ⟨[0, 10], [(5, -5, 0), (5, 5, 0)], "intruder"⟩

/-- A trajectory parallel to `primaryTraj`, offset by 3 m in `y`. -/
def offsetTraj : Trajectory := ⟨[0, 10], [(0, 3, 0), (10, 3, 0)], "offset"⟩

/-- Untimed waypoint list with a duplicated first waypoint and positive
total path length. -/
def dupWaypoints : List Waypoint :=
  [⟨0, 0, none, none, none⟩, ⟨0, 0, none, none, none⟩,
   ⟨1, 0, none, none, none⟩]

/-- Untimed two-waypoint straight path from the origin to `(2,0)`. -/
def straightWaypoints : List Waypoint :=
  [⟨0, 0, none, none, none⟩, ⟨2, 0, none, none, none⟩]

/-- Fully timestamped two-waypoint list. -/
def timedWaypoints : List Waypoint :=
  [⟨0, 0, none, some 0, none⟩, ⟨1, 0, none, some 5, none⟩]

/-- Untimed waypoint list whose waypoints all coincide (zero total path
length). -/
def coincidentWaypoints : List Waypoint :=
  [⟨1, 1, none, none, none⟩, ⟨1, 1, none, none, none⟩,
   ⟨1, 1, none, none, none⟩]

/-! ### Helper lemmas -/

/-- Justification of the squared rendering of the source's strict
comparison `distance < buffer`: for a nonnegative distance the two forms
agree, so `0 < b ∧ d² < b²` is a faithful translation. -/
theorem dist_lt_iff_sq_lt_sq (d b : ℚ) (hd : 0 ≤ d) :
    d < b ↔ 0 < b ∧ d ^ 2 < b ^ 2 := by
  constructor
  · intro h
    exact ⟨lt_of_le_of_lt hd h, by nlinarith⟩
  · rintro ⟨hb, h2⟩
    nlinarith

theorem headD_eq_getD {α : Type} (l : List α) (d : α) (h : l ≠ []) :
    l.headD d = l.getD 0 d := by
  cases l with
  | nil => exact absurd rfl h
  | cons a l => rfl

theorem getLastD_eq_getD {α : Type} :
    ∀ (l : List α) (d : α), l ≠ [] → l.getLastD d = l.getD (l.length - 1) d := by
  intro l
  induction l with
  | nil => intro d h; exact absurd rfl h
  | cons a l ih =>
    intro d _
    cases l with
    | nil => rfl
    | cons b r =>
      rw [List.getLastD_cons, ih a (by simp)]
      have h1 : (b :: r).length - 1 < (b :: r).length := by simp
      have h2 : (a :: b :: r).length - 1 = ((b :: r).length - 1) + 1 := by
        simp
      rw [h2, List.getD_cons_succ,
        List.getD_eq_getElem _ _ h1, List.getD_eq_getElem _ _ h1]

theorem chain'_fst_getD_mono :
    ∀ (l : List (ℚ × ℚ)), l.Chain' (fun p q => p.1 < q.1) →
      ∀ (i j : ℕ) (d : ℚ × ℚ), i ≤ j → j < l.length →
        (l.getD i d).1 ≤ (l.getD j d).1 := by
  intro l
  induction l with
  | nil => intro _ i j d _ hj; simp at hj
  | cons a l ih =>
    intro hc i j d hij hj
    cases i with
    | zero =>
      cases j with
      | zero => exact le_refl _
      | succ j =>
        rw [List.getD_cons_zero, List.getD_cons_succ]
        simp only [List.length_cons, Nat.succ_lt_succ_iff] at hj
        cases l with
        | nil => simp at hj
        | cons b r =>
          have hab : a.1 < b.1 := (List.chain'_cons.mp hc).1
          have : ((b :: r).getD 0 d).1 ≤ ((b :: r).getD j d).1 :=
            ih (List.chain'_cons.mp hc).2 0 j d (Nat.zero_le _) hj
          rw [List.getD_cons_zero] at this
          exact le_trans (le_of_lt hab) this
    | succ i =>
      cases j with
      | zero => exact absurd hij (by omega)
      | succ j =>
        rw [List.getD_cons_succ, List.getD_cons_succ]
        simp only [List.length_cons, Nat.succ_lt_succ_iff] at hj
        exact ih hc.tail i j d (Nat.succ_le_succ_iff.mp hij) hj

theorem chain'_fst_headD_le_getLastD (l : List (ℚ × ℚ))
    (hc : l.Chain' (fun p q => p.1 < q.1)) (h : l ≠ []) (d : ℚ × ℚ) :
    (l.headD d).1 ≤ (l.getLastD d).1 := by
  rw [headD_eq_getD _ _ h, getLastD_eq_getD _ _ h]
  exact chain'_fst_getD_mono l hc 0 (l.length - 1) d (Nat.zero_le _)
    (by cases l with | nil => exact absurd rfl h | cons a l => simp)

/-- `np.interp` clamps to the first ordinate at or below the first
abscissa. -/
theorem npInterp_head (t : ℚ) (l : List (ℚ × ℚ)) (d : ℚ × ℚ) (h : l ≠ [])
    (ht : t ≤ (l.headD d).1) : npInterp t l = (l.headD d).2 := by
  cases l with
  | nil => exact absurd rfl h
  | cons a l =>
    cases l with
    | nil => rfl
    | cons b r =>
      simp only [List.headD_cons] at ht
      simp [npInterp, ht]

/-- `np.interp` clamps to the last ordinate at or beyond the last
abscissa (strictly increasing abscissas). -/
theorem npInterp_last (t : ℚ) :
    ∀ (l : List (ℚ × ℚ)) (d : ℚ × ℚ),
      l.Chain' (fun p q => p.1 < q.1) → l ≠ [] →
        (l.getLastD d).1 ≤ t → npInterp t l = (l.getLastD d).2 := by
  intro l
  induction l with
  | nil => intro d _ h _; exact absurd rfl h
  | cons a l ih =>
    intro d hc hne ht
    obtain ⟨ta, va⟩ := a
    cases l with
    | nil => rfl
    | cons b r =>
      obtain ⟨tb, vb⟩ := b
      have hab : ta < tb := (List.chain'_cons.mp hc).1
      have hcr : ((tb, vb) :: r).Chain' (fun p q => p.1 < q.1) :=
        (List.chain'_cons.mp hc).2
      have hlast : (((ta, va) :: (tb, vb) :: r).getLastD d)
          = (((tb, vb) :: r).getLastD d) := by
        rw [getLastD_eq_getD _ _ (by simp), getLastD_eq_getD _ _ (by simp)]
        have h2 : ((ta, va) :: (tb, vb) :: r).length - 1
            = (((tb, vb) :: r).length - 1) + 1 := by simp
        rw [h2, List.getD_cons_succ]
      rw [hlast] at ht ⊢
      have hble : tb ≤ (((tb, vb) :: r).getLastD d).1 := by
        have := chain'_fst_headD_le_getLastD ((tb, vb) :: r) hcr (by simp) d
        simpa using this
      have hat : ¬ t ≤ ta := by
        push_neg
        exact lt_of_lt_of_le hab (le_trans hble ht)
      cases r with
      | nil =>
        have hbd : ((((tb, vb) : ℚ × ℚ)) :: ([] : List (ℚ × ℚ))).getLastD d
            = (tb, vb) := rfl
        rw [hbd] at ht ⊢
        by_cases htb : t ≤ tb
        · have heq : t = tb := le_antisymm htb ht
          have hne2 : tb - ta ≠ 0 := sub_ne_zero.mpr (ne_of_gt hab)
          have hstep : npInterp t [(ta, va), (tb, vb)]
              = if t ≤ ta then va
                else if t ≤ tb then va + (vb - va) * ((t - ta) / (tb - ta))
                else npInterp t [(tb, vb)] := rfl
          rw [hstep, if_neg hat, if_pos htb, heq]
          field_simp
        · have hstep : npInterp t [(ta, va), (tb, vb)]
              = if t ≤ ta then va
                else if t ≤ tb then va + (vb - va) * ((t - ta) / (tb - ta))
                else npInterp t [(tb, vb)] := rfl
          rw [hstep, if_neg hat, if_neg htb]
          rfl
      | cons c s =>
        obtain ⟨tc, vc⟩ := c
        have hbc : tb < tc := (List.chain'_cons.mp hcr).1
        have hcle : tc ≤ (((tc, vc) :: s).getLastD d).1 := by
          have := chain'_fst_headD_le_getLastD ((tc, vc) :: s)
            (List.chain'_cons.mp hcr).2 (by simp) d
          simpa using this
        have hlast2 : (((tb, vb) :: (tc, vc) :: s).getLastD d)
            = (((tc, vc) :: s).getLastD d) := by
          rw [getLastD_eq_getD _ _ (by simp), getLastD_eq_getD _ _ (by simp)]
          have h2 : ((tb, vb) :: (tc, vc) :: s).length - 1
              = (((tc, vc) :: s).length - 1) + 1 := by simp
          rw [h2, List.getD_cons_succ]
        have hbt : ¬ t ≤ tb := by
          push_neg
          rw [hlast2] at ht
          exact lt_of_lt_of_le hbc (le_trans hcle ht)
        have hstep : npInterp t ((ta, va) :: (tb, vb) :: (tc, vc) :: s)
            = if t ≤ ta then va
              else if t ≤ tb then va + (vb - va) * ((t - ta) / (tb - ta))
              else npInterp t ((tb, vb) :: (tc, vc) :: s) := rfl
        rw [hstep, if_neg hat, if_neg hbt]
        exact ih d hcr (by simp) ht

/-- `np.interp` strictly inside a segment evaluates the linear blend of
that segment's endpoints (strictly increasing abscissas). -/
theorem npInterp_segment (t : ℚ) :
    ∀ (i : ℕ) (l : List (ℚ × ℚ)) (d : ℚ × ℚ),
      l.Chain' (fun p q => p.1 < q.1) → i + 1 < l.length →
        (l.getD i d).1 < t → t ≤ (l.getD (i + 1) d).1 →
        npInterp t l = (l.getD i d).2 +
          ((l.getD (i + 1) d).2 - (l.getD i d).2) *
            ((t - (l.getD i d).1) / ((l.getD (i + 1) d).1 - (l.getD i d).1)) := by
  intro i
  induction i with
  | zero =>
    intro l d hc hlen hlo hhi
    match l with
    | (ta, va) :: (tb, vb) :: r =>
      simp only [List.getD_cons_zero, List.getD_cons_succ] at hlo hhi ⊢
      have hat : ¬ t ≤ ta := not_le.mpr hlo
      have hstep : npInterp t ((ta, va) :: (tb, vb) :: r)
          = if t ≤ ta then va
            else if t ≤ tb then va + (vb - va) * ((t - ta) / (tb - ta))
            else npInterp t ((tb, vb) :: r) := rfl
      rw [hstep, if_neg hat, if_pos hhi]
  | succ i ih =>
    intro l d hc hlen hlo hhi
    match l with
    | (ta, va) :: (tb, vb) :: r =>
      simp only [List.getD_cons_succ] at hlo hhi ⊢
      simp only [List.length_cons] at hlen
      have hcr : ((tb, vb) :: r).Chain' (fun p q => p.1 < q.1) :=
        (List.chain'_cons.mp hc).2
      have hab : ta < tb := (List.chain'_cons.mp hc).1
      have hmono : (((tb, vb) :: r).getD 0 d).1
          ≤ (((tb, vb) :: r).getD i d).1 :=
        chain'_fst_getD_mono _ hcr 0 i d (Nat.zero_le _)
          (by simp only [List.length_cons]; omega)
      rw [List.getD_cons_zero] at hmono
      have hat : ¬ t ≤ ta := not_le.mpr
        (lt_trans (lt_of_lt_of_le hab hmono) hlo)
      have hbt : ¬ t ≤ tb := not_le.mpr (lt_of_le_of_lt hmono hlo)
      have hstep : npInterp t ((ta, va) :: (tb, vb) :: r)
          = if t ≤ ta then va
            else if t ≤ tb then va + (vb - va) * ((t - ta) / (tb - ta))
            else npInterp t ((tb, vb) :: r) := rfl
      rw [hstep, if_neg hat, if_neg hbt]
      exact ih ((tb, vb) :: r) d hcr
        (by simp only [List.length_cons]; omega) hlo hhi

/-- Membership in a guarded `filterMap`, the shape of the conflict
record builder. -/
theorem mem_filterMap_guard {α β : Type} (p : α → Prop) [DecidablePred p]
    (g : α → β) (l : List α) (b : β) :
    b ∈ l.filterMap (fun a => if p a then some (g a) else none) ↔
      ∃ a ∈ l, p a ∧ g a = b := by
  rw [List.mem_filterMap]
  constructor
  · rintro ⟨a, ha, hfa⟩
    by_cases hpa : p a
    · rw [if_pos hpa] at hfa
      exact ⟨a, ha, hpa, Option.some_injective _ hfa⟩
    · rw [if_neg hpa] at hfa
      exact absurd hfa (by simp)
  · rintro ⟨a, ha, hpa, hga⟩
    exact ⟨a, ha, by rw [if_pos hpa, hga]⟩

/-- Length of a guarded `filterMap`: the number of elements satisfying
the guard. -/
theorem length_filterMap_guard {α β : Type} (p : α → Prop) [DecidablePred p]
    (g : α → β) :
    ∀ l : List α,
      (l.filterMap (fun a => if p a then some (g a) else none)).length
        = l.countP (fun a => decide (p a)) := by
  intro l
  induction l with
  | nil => rfl
  | cons a l ih =>
    by_cases hpa : p a
    · simp [List.filterMap_cons, List.countP_cons, if_pos hpa, ih]
    · simp [List.filterMap_cons, List.countP_cons, if_neg hpa, ih, hpa]

/-- The head of `np.cumsum`-style `scanl` is its base value. -/
theorem scanl_head {α β : Type} (f : α → β → α) (a : α) (l : List β) :
    (List.scanl f a l).headD a = a := by
  cases l <;> rfl

/-- A cumulative-sum list is strictly increasing exactly when every
summand is positive. -/
theorem chain'_lt_scanl_iff :
    ∀ (l : List ℚ) (a : ℚ),
      (List.scanl (· + ·) a l).Chain' (· < ·) ↔ ∀ x ∈ l, 0 < x := by
  intro l
  induction l with
  | nil => intro a; simp [List.scanl]
  | cons x xs ih =>
    intro a
    rw [List.scanl_cons, List.singleton_append]
    have hhead : (List.scanl (· + ·) (a + x) xs).head?
        = some (a + x) := by
      cases xs <;> rfl
    rw [List.chain'_cons']
    constructor
    · rintro ⟨h1, h2⟩
      intro y hy
      rcases List.mem_cons.mp hy with rfl | hy'
      · have := h1 (a + y) (by rw [hhead]; rfl)
        linarith
      · exact (ih (a + x)).mp h2 y hy'
    · intro h
      refine ⟨?_, (ih (a + x)).mpr (fun y hy => h y (List.mem_cons_of_mem _ hy))⟩
      intro z hz
      rw [hhead] at hz
      have hx : 0 < x := h x (List.mem_cons_self _ _)
      have : z = a + x := by
        injection hz with h'
        exact h'.symm
      rw [this]
      linarith

/-- `Chain'` is the pointwise condition on the zip of a list with its
tail. -/
theorem chain'_iff_forall_zip_tail {α : Type} (R : α → α → Prop) :
    ∀ l : List α, l.Chain' R ↔ ∀ pq ∈ l.zip l.tail, R pq.1 pq.2 := by
  intro l
  induction l with
  | nil => simp
  | cons a l ih =>
    cases l with
    | nil => simp
    | cons b r =>
      rw [List.chain'_cons]
      have hz : (a :: b :: r).zip ((a :: b :: r).tail)
          = (a, b) :: ((b :: r).zip ((b :: r).tail)) := rfl
      constructor
      · rintro ⟨hab, hbr⟩
        intro pq hpq
        rw [hz] at hpq
        rcases List.mem_cons.mp hpq with rfl | h'
        · exact hab
        · exact (ih.mp hbr) pq h'
      · intro h
        constructor
        · exact h (a, b) (by rw [hz]; exact List.mem_cons_self _ _)
        · refine ih.mpr (fun pq hpq => h pq ?_)
          rw [hz]
          exact List.mem_cons_of_mem _ hpq

theorem chain'_lt_pair (a b : ℚ) (h : a < b) : List.Chain' (· < ·) [a, b] := by
  simp [List.chain'_cons, h]

theorem linspace_length (t0 t1 : ℚ) (n : ℕ) : (linspace t0 t1 n).length = n := by
  rw [linspace, List.length_map, List.length_range]

theorem linspace_getD (t0 t1 : ℚ) (n i : ℕ) (h : i < n) (d : ℚ) :
    (linspace t0 t1 n).getD i d
      = t0 + ((i : ℚ) * (t1 - t0)) / ((n : ℚ) - 1) := by
  have hl : i < (linspace t0 t1 n).length := by rw [linspace_length]; exact h
  rw [List.getD_eq_getElem _ _ hl]
  simp only [linspace, List.getElem_map, List.getElem_range]

theorem linspace_ne_nil (t0 t1 : ℚ) (n : ℕ) (h : 0 < n) :
    linspace t0 t1 n ≠ [] := by
  intro hnil
  have := linspace_length t0 t1 n
  rw [hnil] at this
  simp at this
  omega

theorem linspace_getLastD (t0 t1 : ℚ) (n : ℕ) (h : 2 ≤ n) (d : ℚ) :
    (linspace t0 t1 n).getLastD d = t1 := by
  have hne : linspace t0 t1 n ≠ [] := linspace_ne_nil t0 t1 n (by omega)
  rw [getLastD_eq_getD _ _ hne, linspace_length,
    linspace_getD t0 t1 n (n - 1) (by omega)]
  have h1 : (1 : ℕ) ≤ n := by omega
  have hcast : ((n - 1 : ℕ) : ℚ) = (n : ℚ) - 1 := by
    push_cast [Nat.cast_sub h1]
    ring
  rw [hcast]
  have hne2 : (n : ℚ) - 1 ≠ 0 := by
    have : (2 : ℚ) ≤ (n : ℚ) := by exact_mod_cast h
    linarith
  field_simp

theorem linspace_chain' (t0 t1 : ℚ) (h : t0 < t1) (n : ℕ) :
    (linspace t0 t1 n).Chain' (· < ·) := by
  rw [List.chain'_iff_get]
  intro i hi
  rw [linspace_length] at hi
  have hg1 : (linspace t0 t1 n).get ⟨i, by rw [linspace_length]; omega⟩
      = (linspace t0 t1 n).getD i 0 := by
    rw [List.getD_eq_getElem _ _ (by rw [linspace_length]; omega)]
    rfl
  have hg2 : (linspace t0 t1 n).get ⟨i + 1, by rw [linspace_length]; omega⟩
      = (linspace t0 t1 n).getD (i + 1) 0 := by
    rw [List.getD_eq_getElem _ _ (by rw [linspace_length]; omega)]
    rfl
  rw [hg1, hg2, linspace_getD t0 t1 n i (by omega),
    linspace_getD t0 t1 n (i + 1) (by omega)]
  have hc : (0 : ℚ) < (n : ℚ) - 1 := by
    have : (2 : ℚ) ≤ (n : ℚ) := by exact_mod_cast (by omega : 2 ≤ n)
    linarith
  have hnum : (i : ℚ) * (t1 - t0) < ((i + 1 : ℕ) : ℚ) * (t1 - t0) := by
    have : ((i : ℚ)) < ((i + 1 : ℕ) : ℚ) := by push_cast; linarith
    nlinarith
  exact add_lt_add_left ((div_lt_div_iff_of_pos_right hc).mpr hnum) t0

theorem listMin_le : ∀ (l : List ℚ), ∀ x ∈ l, listMin l ≤ x := by
  intro l
  induction l with
  | nil => simp
  | cons a l ih =>
    intro x hx
    cases l with
    | nil =>
      rcases List.mem_cons.mp hx with rfl | h'
      · exact le_refl _
      · simp at h'
    | cons b r =>
      have hmin : listMin (a :: b :: r) = min a (listMin (b :: r)) := rfl
      rcases List.mem_cons.mp hx with rfl | h'
      · rw [hmin]; exact min_le_left _ _
      · rw [hmin]; exact le_trans (min_le_right _ _) (ih x h')

theorem listMin_mem : ∀ (l : List ℚ), l ≠ [] → listMin l ∈ l := by
  intro l
  induction l with
  | nil => intro h; exact absurd rfl h
  | cons a l ih =>
    intro _
    cases l with
    | nil => exact List.mem_singleton.mpr rfl
    | cons b r =>
      have hmin : listMin (a :: b :: r) = min a (listMin (b :: r)) := rfl
      rcases le_total a (listMin (b :: r)) with hle | hle
      · rw [hmin, min_eq_left hle]
        exact List.mem_cons_self _ _
      · rw [hmin, min_eq_right hle]
        exact List.mem_cons_of_mem _ (ih (by simp))

theorem argminIdx_spec : ∀ (l : List ℚ), l ≠ [] →
    argminIdx l < l.length ∧ l.getD (argminIdx l) 0 = listMin l := by
  intro l
  induction l with
  | nil => intro h; exact absurd rfl h
  | cons a l ih =>
    intro _
    cases l with
    | nil => exact ⟨by simp [argminIdx], rfl⟩
    | cons b r =>
      have hargm : argminIdx (a :: b :: r)
          = if a ≤ listMin (b :: r) then 0 else argminIdx (b :: r) + 1 := rfl
      have hmin : listMin (a :: b :: r) = min a (listMin (b :: r)) := rfl
      by_cases hle : a ≤ listMin (b :: r)
      · rw [hargm, if_pos hle, hmin, min_eq_left hle]
        exact ⟨by simp, rfl⟩
      · obtain ⟨ih1, ih2⟩ := ih (by simp)
        rw [hargm, if_neg hle, hmin,
          min_eq_right (le_of_lt (not_le.mp hle))]
        constructor
        · simp only [List.length_cons] at ih1 ⊢
          omega
        · rw [List.getD_cons_succ]
          exact ih2

theorem mem_union1d (xs ys : List ℚ) (a : ℚ) :
    a ∈ union1d xs ys ↔ a ∈ xs ∨ a ∈ ys := by
  unfold union1d
  rw [List.mem_dedup, (List.perm_insertionSort _ _).mem_iff]
  exact List.mem_append

theorem arange_pos_eq (s e st : ℚ) (h : 0 < st) :
    arange s e st = (List.range (⌈(e - s) / st⌉).toNat).map
      (fun (i : ℕ) => s + (i : ℚ) * st) := by
  simp only [arange, if_neg (not_le.mpr h)]

theorem arange_length (s e st : ℚ) (h : 0 < st) :
    (arange s e st).length = (⌈(e - s) / st⌉).toNat := by
  rw [arange_pos_eq s e st h, List.length_map, List.length_range]

theorem arange_getD (s e st : ℚ) (hst : 0 < st) (i : ℕ)
    (h : i < (⌈(e - s) / st⌉).toNat) (d : ℚ) :
    (arange s e st).getD i d = s + (i : ℚ) * st := by
  have hl : i < (arange s e st).length := by rw [arange_length s e st hst]; exact h
  rw [List.getD_eq_getElem _ _ hl]
  simp only [arange_pos_eq s e st hst, List.getElem_map, List.getElem_range]

theorem arange_nil_of_le (s e st : ℚ) (h : e ≤ s) : arange s e st = [] := by
  by_cases hst : st ≤ 0
  · simp only [arange, if_pos hst]
  · have hpos : 0 < st := not_le.mp hst
    have hle : (e - s) / st ≤ 0 :=
      div_nonpos_iff.mpr (Or.inr ⟨by linarith, le_of_lt hpos⟩)
    have hceil : ⌈(e - s) / st⌉ ≤ 0 := by
      have := Int.ceil_le.mpr (by simpa using hle : (e - s) / st ≤ ((0 : ℤ) : ℚ))
      simpa using this
    have htn : (⌈(e - s) / st⌉).toNat = 0 := Int.toNat_of_nonpos hceil
    rw [arange_pos_eq s e st hpos, htn]
    rfl

theorem arange_ne_nil (s e st : ℚ) (hst : 0 < st) (h : s < e) :
    arange s e st ≠ [] := by
  have hpos : 0 < (e - s) / st := div_pos (by linarith) hst
  have hceil : 0 < ⌈(e - s) / st⌉ := Int.ceil_pos.mpr hpos
  have : 0 < (arange s e st).length := by
    rw [arange_length s e st hst]
    omega
  exact List.ne_nil_of_length_pos this

theorem arange_headD (s e st : ℚ) (hst : 0 < st) (h : s < e) (d : ℚ) :
    (arange s e st).headD d = s := by
  have hne := arange_ne_nil s e st hst h
  rw [headD_eq_getD _ _ hne]
  have hpos : 0 < (⌈(e - s) / st⌉).toNat := by
    have := Int.ceil_pos.mpr (div_pos (by linarith : 0 < e - s) hst)
    omega
  rw [arange_getD s e st hst 0 hpos]
  simp

theorem getD_map' {α β : Type} (f : α → β) (l : List α) (i : ℕ)
    (h : i < l.length) (d : β) (d' : α) :
    (l.map f).getD i d = f (l.getD i d') := by
  rw [List.getD_eq_getElem _ _ (by simpa using h),
    List.getD_eq_getElem _ _ h, List.getElem_map]

theorem headD_map' {α β : Type} (f : α → β) (l : List α) (h : l ≠ [])
    (d : β) (d' : α) : (l.map f).headD d = f (l.headD d') := by
  cases l with
  | nil => exact absurd rfl h
  | cons a l => rfl

theorem getLastD_map' {α β : Type} (f : α → β) (l : List α) (h : l ≠ [])
    (d : β) (d' : α) : (l.map f).getLastD d = f (l.getLastD d') := by
  have hne : l.map f ≠ [] := by simpa using h
  rw [getLastD_eq_getD _ _ hne, getLastD_eq_getD _ _ h, List.length_map]
  have hlen : l.length - 1 < l.length := by
    cases l with
    | nil => exact absurd rfl h
    | cons a l => simp
  exact getD_map' f l (l.length - 1) hlen d d'

theorem getD_zip' {α β : Type} (l1 : List α) (l2 : List β) (i : ℕ)
    (h1 : i < l1.length) (h2 : i < l2.length) (d : α × β) (d1 : α) (d2 : β) :
    (l1.zip l2).getD i d = (l1.getD i d1, l2.getD i d2) := by
  have hz : i < (l1.zip l2).length := by
    rw [List.length_zip]
    omega
  rw [List.getD_eq_getElem _ _ hz, List.getD_eq_getElem _ _ h1,
    List.getD_eq_getElem _ _ h2, List.getElem_zip]

theorem zip_ne_nil {α β : Type} (l1 : List α) (l2 : List β)
    (h1 : l1 ≠ []) (h2 : l2 ≠ []) : l1.zip l2 ≠ [] := by
  have : 0 < (l1.zip l2).length := by
    rw [List.length_zip]
    have g1 : 0 < l1.length := List.length_pos.mpr h1
    have g2 : 0 < l2.length := List.length_pos.mpr h2
    omega
  exact List.ne_nil_of_length_pos this

theorem getLastD_zip' {α β : Type} (l1 : List α) (l2 : List β)
    (hlen : l1.length = l2.length) (h1 : l1 ≠ []) (d : α × β) (d1 : α)
    (d2 : β) :
    (l1.zip l2).getLastD d = (l1.getLastD d1, l2.getLastD d2) := by
  have h2 : l2 ≠ [] := by
    intro hnil
    rw [hnil] at hlen
    simp at hlen
    exact h1 hlen
  have hne : l1.zip l2 ≠ [] := zip_ne_nil l1 l2 h1 h2
  have hg1 : 0 < l1.length := List.length_pos.mpr h1
  rw [getLastD_eq_getD _ _ hne, getLastD_eq_getD _ _ h1,
    getLastD_eq_getD _ _ h2, List.length_zip, ← hlen, min_self]
  exact getD_zip' l1 l2 (l1.length - 1) (by omega) (by omega) d d1 d2

theorem headD_zip' {α β : Type} (l1 : List α) (l2 : List β)
    (h1 : l1 ≠ []) (h2 : l2 ≠ []) (d : α × β) (d1 : α) (d2 : β) :
    (l1.zip l2).headD d = (l1.headD d1, l2.headD d2) := by
  cases l1 with
  | nil => exact absurd rfl h1
  | cons a l1 =>
    cases l2 with
    | nil => exact absurd rfl h2
    | cons b l2 => rfl

/-- Strictly increasing times transfer to the zipped knot lists fed to
`np.interp`. -/
theorem chain'_zip_fst {α : Type} (times : List ℚ) (l2 : List α)
    (hc : times.Chain' (· < ·)) (hlen : times.length ≤ l2.length) :
    (times.zip l2).Chain' (fun p q => p.1 < q.1) := by
  rw [← List.map_fst_zip times l2 hlen] at hc
  exact (List.chain'_map _).mp hc

/-- The per-intruder loop body is the guarded `filterMap` of the
violation test over the overlap grid (the early-skip branches coincide
with the empty-grid cases). -/
theorem conflictsForSim_eq_filterMap (p s : Trajectory) (b dt : ℚ)
    (u : Bool) :
    conflictsForSim p s b dt u = (overlapGrid p s dt).filterMap
      (fun t => if violates p s b u t then some (conflictRecord p s u t)
        else none) := by
  unfold conflictsForSim overlapGrid
  by_cases h : min p.time_range.2 s.time_range.2
      ≤ max p.time_range.1 s.time_range.1
  · rw [if_pos h, arange_nil_of_le _ _ _ h, List.filterMap_nil]
  · rw [if_neg h]
    by_cases hg : (arange (max p.time_range.1 s.time_range.1)
        (min p.time_range.2 s.time_range.2) dt).isEmpty
    · rw [if_pos hg, List.isEmpty_iff.mp hg, List.filterMap_nil]
    · rw [if_neg hg]
      rfl

/-- Claim C1 — over the overlap grid, `check_spatiotemporal_conflicts`
emits a record at an instant iff the sampled separation there is
strictly below the buffer (squared rendering); every emitted record's
distance is strictly below the buffer and equals the sampled distance at
its instant; the record count equals the count of violating instants (no
merging); an instant whose distance exactly equals the buffer yields no
record. -/
theorem check_spatiotemporal_per_instant_spec
    (p s : Trajectory) (b dt : ℚ) (u : Bool) :
    (∀ t ∈ overlapGrid p s dt,
      ((∃ c ∈ conflictsForSim p s b dt u, c.time = t) ↔ violates p s b u t)) ∧
    (∀ c ∈ conflictsForSim p s b dt u,
      c.min_distance2 < b ^ 2 ∧ c.time ∈ overlapGrid p s dt ∧
      c.min_distance2 = sampledDist2 p s u c.time ∧
      c.flight_id = s.flight_id) ∧
    (conflictsForSim p s b dt u).length
      = (overlapGrid p s dt).countP (fun t => decide (violates p s b u t)) ∧
    (∀ t ∈ overlapGrid p s dt, sampledDist2 p s u t = b ^ 2 →
      ¬ ∃ c ∈ conflictsForSim p s b dt u, c.time = t) := by
  have heq := conflictsForSim_eq_filterMap p s b dt u
  have hmem : ∀ c, c ∈ conflictsForSim p s b dt u ↔
      ∃ t ∈ overlapGrid p s dt, violates p s b u t ∧
        conflictRecord p s u t = c := by
    intro c
    rw [heq]
    exact mem_filterMap_guard _ _ _ c
  have hiff : ∀ t ∈ overlapGrid p s dt,
      ((∃ c ∈ conflictsForSim p s b dt u, c.time = t) ↔ violates p s b u t) := by
    intro t ht
    constructor
    · rintro ⟨c, hc, hct⟩
      obtain ⟨t', ht', hv', hr'⟩ := (hmem c).mp hc
      have : t' = t := by rw [← hct, ← hr']; rfl
      rw [← this]
      exact hv'
    · intro hv
      exact ⟨conflictRecord p s u t, (hmem _).mpr ⟨t, ht, hv, rfl⟩, rfl⟩
  refine ⟨hiff, ?_, ?_, ?_⟩
  · intro c hc
    obtain ⟨t, ht, hv, hr⟩ := (hmem c).mp hc
    have htime : c.time = t := by rw [← hr]; rfl
    have hd2 : c.min_distance2 = sampledDist2 p s u t := by rw [← hr]; rfl
    have hfid : c.flight_id = s.flight_id := by rw [← hr]; rfl
    exact ⟨by rw [hd2]; exact hv.2, by rw [htime]; exact ht,
      by rw [hd2, htime], hfid⟩
  · rw [heq]
    exact length_filterMap_guard _ _ _
  · intro t ht hbe hex
    have hv2 : sampledDist2 p s u t < b ^ 2 := ((hiff t ht).mp hex).2
    rw [hbe] at hv2
    exact lt_irrefl _ hv2

/-- Witness for C1: the crossing intruder inside the shared window gives
a record exactly at the crossing instant `t = 5`, and exactly one
record overall. -/
theorem check_spatiotemporal_per_instant_spec_witness :
    (5 : ℚ) ∈ overlapGrid primaryTraj crossIntruder 1 ∧
    (∃ c ∈ conflictsForSim primaryTraj crossIntruder 1 1 false,
      c.time = 5) ∧
    (conflictsForSim primaryTraj crossIntruder 1 1 false).length = 1 := by
  have h := check_spatiotemporal_per_instant_spec primaryTraj crossIntruder
    1 1 false
  refine ⟨by decide, (h.1 5 (by decide)).mpr (by decide), by decide⟩

/-- Claim C2 — an intruder whose time window does not overlap the
primary's (`min end ≤ max start`) produces no conflicts; if every
intruder is temporally disjoint the detector reports `clear` with an
empty list, regardless of spatial proximity. -/
theorem no_temporal_overlap_clear (p : Trajectory)
    (sim_trajs : List Trajectory) (b dt : ℚ) (u : Bool)
    (h : ∀ s ∈ sim_trajs,
      min p.time_range.2 s.time_range.2 ≤ max p.time_range.1 s.time_range.1) :
    check_spatiotemporal_conflicts p sim_trajs b dt u = ("clear", []) := by
  unfold check_spatiotemporal_conflicts
  have hall : sim_trajs.flatMap (fun s => conflictsForSim p s b dt u) = [] := by
    rw [List.flatMap_eq_nil_iff]
    intro s hs
    unfold conflictsForSim
    rw [if_pos (h s hs)]
  rw [hall]
  rfl

/-- Witness for C2: `lateIntruder` crosses the primary's path in space
at `(5,0,0)` but flies during `[20,30]`, after the primary's `[0,10]`;
even with a huge buffer the result is `clear` with no conflicts. -/
theorem no_temporal_overlap_clear_witness :
    (∀ s ∈ [lateIntruder],
      min primaryTraj.time_range.2 s.time_range.2
        ≤ max primaryTraj.time_range.1 s.time_range.1) ∧
    check_spatiotemporal_conflicts primaryTraj [lateIntruder] 100 1 false
      = ("clear", []) :=
  ⟨by decide,
    no_temporal_overlap_clear primaryTraj [lateIntruder] 100 1 false
      (by decide)⟩

/-- Claim C9 — `check_spatial_conflict` accepts `use_3d` but its result
never depends on it: the outputs for any two flag values coincide. -/
theorem check_spatial_conflict_ignores_use_3d (traj_A traj_B : Trajectory)
    (buffer_m : ℚ) (u1 u2 : Bool) :
    check_spatial_conflict traj_A traj_B buffer_m u1
      = check_spatial_conflict traj_A traj_B buffer_m u2 := rfl

/-- Counterexample to C4 as stated: the overlap of `primaryTraj`
(`[0,10]`) and `shortIntruder` (`[0,1/2]`) is non-empty but shorter than
the step `dt = 1`, yet the grid is `[0]` (not empty) and the intruder
produces a conflict record rather than being skipped. -/
theorem short_window_not_skipped_cex :
    (min primaryTraj.time_range.2 shortIntruder.time_range.2
      - max primaryTraj.time_range.1 shortIntruder.time_range.1 = 1 / 2) ∧
    ((1 : ℚ) / 2 < 1) ∧
    overlapGrid primaryTraj shortIntruder 1 = [0] ∧
    conflictsForSim primaryTraj shortIntruder 5 1 false
      = [⟨"intruder", 0, (0, 0, 0), (0, 0, 0), 0⟩] := by
  decide

/-- Claim C4 (amended) — with `dt > 0`, a non-empty overlap window always
yields a non-empty `np.arange` grid whose first instant is the overlap
start (even when the window is shorter than `dt`), so the intruder is
never skipped for that reason: it contributes no records exactly when no
grid instant violates the buffer. -/
theorem short_window_grid_nonempty (p s : Trajectory) (b dt : ℚ) (u : Bool)
    (hdt : 0 < dt)
    (hov : max p.time_range.1 s.time_range.1
      < min p.time_range.2 s.time_range.2) :
    overlapGrid p s dt ≠ [] ∧
    (overlapGrid p s dt).headD 0 = max p.time_range.1 s.time_range.1 ∧
    (conflictsForSim p s b dt u = [] ↔
      ∀ t ∈ overlapGrid p s dt, ¬ violates p s b u t) := by
  refine ⟨arange_ne_nil _ _ _ hdt hov, arange_headD _ _ _ hdt hov 0, ?_⟩
  rw [conflictsForSim_eq_filterMap, List.filterMap_eq_nil_iff]
  constructor
  · intro hall t ht hv
    have := hall t ht
    rw [if_pos hv] at this
    exact absurd this (by simp)
  · intro hall t ht
    rw [if_neg (hall t ht)]

/-- Witness for C4 (amended): the short-window intruder is not skipped —
its grid is non-empty and it does contribute a record. -/
theorem short_window_grid_nonempty_witness :
    overlapGrid primaryTraj shortIntruder 1 ≠ [] ∧
    conflictsForSim primaryTraj shortIntruder 5 1 false ≠ [] := by
  have h := short_window_grid_nonempty primaryTraj shortIntruder 5 1 false
    (by decide) (by decide)
  exact ⟨h.1, by decide⟩

/-- Counterexample to C3 as stated: for a trajectory of duration 1 and
`dt = 2` (duration smaller than the step), the grid is the single point
`[t0]` — `np.linspace(t0, t1, 1)` returns `[t0]` — so the last grid
point is `t0 = 0 ≠ t1 = 1` and the position there is the *first*
recorded position, not the final one. -/
theorem sample_uniform_short_duration_cex :
    sampleTraj.sample_uniform 2 = some ([0], [(0, 0, 0)]) ∧
    sampleTraj.times.getLastD 0 = 1 ∧ ((0 : ℚ) ≠ 1) ∧
    sampleTraj.positions.getLastD (0, 0, 0) = (1, 2, 3) ∧
    ((((0 : ℚ), (0 : ℚ), (0 : ℚ)) : Vec3) ≠ ((1 : ℚ), (2 : ℚ), (3 : ℚ))) := by
  decide

/-- Claim C3 (amended) — for `dt > 0` and `t1 > t0`, `sample_uniform`
returns a grid of exactly `⌊(t1−t0)/dt⌋+1` evenly spaced times with a
position per time; when `dt ≤ t1−t0` (grid of length ≥ 2) the last grid
point is exactly `t1` and its position is the final recorded position;
when the duration is smaller than `dt` the grid degenerates to the
single point `[t0]` carrying the first recorded position. -/
theorem sample_uniform_spec (tr : Trajectory) (dt_s : ℚ)
    (hlen : tr.times.length = tr.positions.length)
    (hchain : tr.times.Chain' (· < ·))
    (hdt : 0 < dt_s)
    (hrange : tr.times.headD 0 < tr.times.getLastD 0) :
    ∃ grid pos, tr.sample_uniform dt_s = some (grid, pos) ∧
      grid.length
        = (⌊(tr.times.getLastD 0 - tr.times.headD 0) / dt_s⌋).toNat + 1 ∧
      pos.length = grid.length ∧
      (∀ i, i + 1 < grid.length →
        grid.getD (i + 1) 0 - grid.getD i 0
          = (tr.times.getLastD 0 - tr.times.headD 0)
            / ((grid.length : ℚ) - 1)) ∧
      (dt_s ≤ tr.times.getLastD 0 - tr.times.headD 0 →
        grid.getLastD 0 = tr.times.getLastD 0 ∧
        pos.getLastD (0, 0, 0) = tr.positions.getLastD (0, 0, 0)) ∧
      (tr.times.getLastD 0 - tr.times.headD 0 < dt_s →
        grid = [tr.times.headD 0] ∧
        pos = [tr.positions.headD (0, 0, 0)]) := by
  have htne : tr.times ≠ [] := by
    intro h
    rw [h] at hrange
    exact lt_irrefl _ hrange
  have hpne : tr.positions ≠ [] := by
    intro h
    rw [h] at hlen
    simp at hlen
    exact htne hlen
  have hxlen : tr.times.length = (tr.positions.map Vec3.x).length := by
    rw [List.length_map]; exact hlen
  have hylen : tr.times.length = (tr.positions.map Vec3.y).length := by
    rw [List.length_map]; exact hlen
  have hzlen : tr.times.length = (tr.positions.map Vec3.z).length := by
    rw [List.length_map]; exact hlen
  set t0 := tr.times.headD 0 with ht0
  set t1 := tr.times.getLastD 0 with ht1
  set n : ℕ := (⌊(t1 - t0) / dt_s⌋).toNat + 1 with hn
  have hsu : tr.sample_uniform dt_s = some (linspace t0 t1 n,
      (linspace t0 t1 n).map (fun t =>
        (npInterp t tr.xKnots, npInterp t tr.yKnots, npInterp t tr.zKnots))) := by
    simp only [Trajectory.sample_uniform, ← ht0, ← ht1, ← hn]
    rw [if_neg (not_le.mpr hdt), if_neg (not_le.mpr hrange)]
  refine ⟨_, _, hsu, linspace_length t0 t1 n, ?_, ?_, ?_, ?_⟩
  · rw [List.length_map]
  · intro i hi
    rw [linspace_length] at hi
    rw [linspace_length, linspace_getD t0 t1 n (i + 1) hi,
      linspace_getD t0 t1 n i (by omega)]
    have h1 : t0 + ((i + 1 : ℕ) : ℚ) * (t1 - t0) / ((n : ℚ) - 1)
        - (t0 + (i : ℚ) * (t1 - t0) / ((n : ℚ) - 1))
        = (((i + 1 : ℕ) : ℚ) * (t1 - t0)) / ((n : ℚ) - 1)
          - ((i : ℚ) * (t1 - t0)) / ((n : ℚ) - 1) := by ring
    rw [h1, div_sub_div_same]
    have h2 : ((i + 1 : ℕ) : ℚ) * (t1 - t0) - (i : ℚ) * (t1 - t0)
        = t1 - t0 := by push_cast; ring
    rw [h2]
  · intro hle
    have hone : (1 : ℚ) ≤ (t1 - t0) / dt_s := (one_le_div hdt).mpr hle
    have hfl : 1 ≤ ⌊(t1 - t0) / dt_s⌋ :=
      Int.le_floor.mpr (by push_cast; exact hone)
    have hn2 : 2 ≤ n := by
      rw [hn]
      omega
    have hgl : (linspace t0 t1 n).getLastD 0 = t1 :=
      linspace_getLastD t0 t1 n hn2 0
    refine ⟨hgl, ?_⟩
    have hgne : linspace t0 t1 n ≠ [] := linspace_ne_nil t0 t1 n (by omega)
    rw [getLastD_map' _ _ hgne _ 0, hgl]
    have hx : npInterp t1 tr.xKnots = Vec3.x (tr.positions.getLastD (0, 0, 0)) := by
      have hz := getLastD_zip' tr.times (tr.positions.map Vec3.x) hxlen htne
        (0, 0) 0 0
      rw [Trajectory.xKnots, npInterp_last t1 _ (0, 0)
        (chain'_zip_fst _ _ hchain (le_of_eq hxlen)) (zip_ne_nil _ _ htne (by
          simpa using hpne)) (by rw [hz]), hz,
        getLastD_map' Vec3.x tr.positions hpne 0 (0, 0, 0)]
    have hy : npInterp t1 tr.yKnots = Vec3.y (tr.positions.getLastD (0, 0, 0)) := by
      have hz := getLastD_zip' tr.times (tr.positions.map Vec3.y) hylen htne
        (0, 0) 0 0
      rw [Trajectory.yKnots, npInterp_last t1 _ (0, 0)
        (chain'_zip_fst _ _ hchain (le_of_eq hylen)) (zip_ne_nil _ _ htne (by
          simpa using hpne)) (by rw [hz]), hz,
        getLastD_map' Vec3.y tr.positions hpne 0 (0, 0, 0)]
    have hzc : npInterp t1 tr.zKnots = Vec3.z (tr.positions.getLastD (0, 0, 0)) := by
      have hz := getLastD_zip' tr.times (tr.positions.map Vec3.z) hzlen htne
        (0, 0) 0 0
      rw [Trajectory.zKnots, npInterp_last t1 _ (0, 0)
        (chain'_zip_fst _ _ hchain (le_of_eq hzlen)) (zip_ne_nil _ _ htne (by
          simpa using hpne)) (by rw [hz]), hz,
        getLastD_map' Vec3.z tr.positions hpne 0 (0, 0, 0)]
    rw [hx, hy, hzc]
    simp [Vec3.x, Vec3.y, Vec3.z]
  · intro hlt
    have hfl : ⌊(t1 - t0) / dt_s⌋ = 0 := by
      rw [Int.floor_eq_zero_iff]
      constructor
      · exact div_nonneg (by linarith) (le_of_lt hdt)
      · exact (div_lt_one hdt).mpr hlt
    have hn1 : n = 1 := by rw [hn, hfl]; rfl
    have hgrid : linspace t0 t1 n = [t0] := by
      rw [hn1]
      unfold linspace
      have hr1 : List.range 1 = [0] := rfl
      rw [hr1, List.map_singleton]
      norm_num
    refine ⟨hgrid, ?_⟩
    rw [hgrid]
    have hx : npInterp t0 tr.xKnots = Vec3.x (tr.positions.headD (0, 0, 0)) := by
      have hz := headD_zip' tr.times (tr.positions.map Vec3.x) htne (by
        simpa using hpne) (0, 0) 0 0
      rw [Trajectory.xKnots, npInterp_head t0 _ (0, 0)
        (zip_ne_nil _ _ htne (by simpa using hpne))
        (by rw [hz]), hz,
        headD_map' Vec3.x tr.positions hpne 0 (0, 0, 0)]
    have hy : npInterp t0 tr.yKnots = Vec3.y (tr.positions.headD (0, 0, 0)) := by
      have hz := headD_zip' tr.times (tr.positions.map Vec3.y) htne (by
        simpa using hpne) (0, 0) 0 0
      rw [Trajectory.yKnots, npInterp_head t0 _ (0, 0)
        (zip_ne_nil _ _ htne (by simpa using hpne))
        (by rw [hz]), hz,
        headD_map' Vec3.y tr.positions hpne 0 (0, 0, 0)]
    have hzc : npInterp t0 tr.zKnots = Vec3.z (tr.positions.headD (0, 0, 0)) := by
      have hz := headD_zip' tr.times (tr.positions.map Vec3.z) htne (by
        simpa using hpne) (0, 0) 0 0
      rw [Trajectory.zKnots, npInterp_head t0 _ (0, 0)
        (zip_ne_nil _ _ htne (by simpa using hpne))
        (by rw [hz]), hz,
        headD_map' Vec3.z tr.positions hpne 0 (0, 0, 0)]
    rw [List.map_singleton, hx, hy, hzc]
    simp [Vec3.x, Vec3.y, Vec3.z]

/-- Witness for C3 (amended): duration 1 with `dt = 1/2` gives 3 evenly
spaced samples ending exactly at `t1` with the final recorded
position. -/
theorem sample_uniform_spec_witness :
    ∃ grid pos, sampleTraj.sample_uniform (1 / 2) = some (grid, pos) ∧
      grid.length = 3 ∧ grid.getLastD 0 = 1 ∧
      pos.getLastD (0, 0, 0) = (1, 2, 3) := by
  obtain ⟨grid, pos, hsu, hlen, _, _, hlast, _⟩ :=
    sample_uniform_spec sampleTraj (1 / 2) (by decide)
      (chain'_lt_pair 0 1 (by norm_num)) (by decide) (by decide)
  obtain ⟨hg, hp⟩ := hlast (by decide)
  exact ⟨grid, pos, hsu, by rw [hlen]; decide, by rw [hg]; decide,
    by rw [hp]; decide⟩

theorem chain'_lt_getD_mono (l : List ℚ) (hc : l.Chain' (· < ·))
    (i j : ℕ) (d : ℚ) (hij : i ≤ j) (hj : j < l.length) :
    l.getD i d ≤ l.getD j d := by
  have hz := chain'_fst_getD_mono (l.zip l)
    (chain'_zip_fst l l hc (le_refl _)) i j (d, d) hij
    (by rw [List.length_zip, min_self]; exact hj)
  rw [getD_zip' l l i (by omega) (by omega) (d, d) d d,
    getD_zip' l l j hj hj (d, d) d d] at hz
  exact hz

theorem linspace_two (a b : ℚ) : linspace a b 2 = [a, b] := by
  unfold linspace
  have hr : List.range 2 = [0, 1] := rfl
  rw [hr]
  norm_num

/-- Clamp below: at or before the first time the first position is
returned. -/
theorem sample_position_at_le_head (tr : Trajectory) (t : ℚ)
    (ht : t ≤ tr.times.headD 0) :
    tr.sample_position_at t = tr.positions.headD (0, 0, 0) := by
  unfold Trajectory.sample_position_at
  rw [if_pos ht]

/-- Clamp above: at or after the last time the last position is
returned. -/
theorem sample_position_at_ge_last (tr : Trajectory)
    (hlen : tr.times.length = tr.positions.length)
    (hchain : tr.times.Chain' (· < ·)) (hne : tr.times ≠ []) (t : ℚ)
    (ht : tr.times.getLastD 0 ≤ t) :
    tr.sample_position_at t = tr.positions.getLastD (0, 0, 0) := by
  unfold Trajectory.sample_position_at
  by_cases hth : t ≤ tr.times.headD 0
  · rw [if_pos hth]
    have hone : tr.times.length = 1 := by
      rcases Nat.lt_or_ge tr.times.length 2 with h2 | h2
      · have : 0 < tr.times.length := List.length_pos.mpr hne
        omega
      · exfalso
        have hg01 : tr.times.getD 0 0 < tr.times.getD 1 0 := by
          have := (List.chain'_iff_get.mp hchain) 0 (by omega)
          rw [List.getD_eq_getElem _ _ (by omega),
            List.getD_eq_getElem _ _ (by omega)]
          exact this
        have hmono : tr.times.getD 1 0 ≤ tr.times.getD (tr.times.length - 1) 0 :=
          chain'_lt_getD_mono _ hchain 1 (tr.times.length - 1) 0 (by omega)
            (by omega)
        rw [← headD_eq_getD _ _ hne] at hg01
        rw [← getLastD_eq_getD _ _ hne] at hmono
        have : tr.times.headD 0 < tr.times.getLastD 0 :=
          lt_of_lt_of_le hg01 hmono
        have : tr.times.getLastD 0 ≤ tr.times.headD 0 := le_trans ht hth
        linarith
    have hpone : tr.positions.length = 1 := by rw [← hlen]; exact hone
    obtain ⟨p, hp⟩ := List.length_eq_one.mp hpone
    rw [hp]
    rfl
  · rw [if_neg hth, if_pos ht]

/-- Strictly inside a segment, `sample_position_at` evaluates the
componentwise linear blend of that segment's endpoint positions. -/
theorem sample_position_at_segment (tr : Trajectory)
    (hlen : tr.times.length = tr.positions.length)
    (hchain : tr.times.Chain' (· < ·)) (i : ℕ) (t : ℚ)
    (hi : i + 1 < tr.times.length)
    (hlo : tr.times.getD i 0 < t) (hhi : t < tr.times.getD (i + 1) 0) :
    tr.sample_position_at t =
      (Vec3.x (tr.positions.getD i (0, 0, 0)) +
        (Vec3.x (tr.positions.getD (i + 1) (0, 0, 0))
          - Vec3.x (tr.positions.getD i (0, 0, 0))) *
          ((t - tr.times.getD i 0)
            / (tr.times.getD (i + 1) 0 - tr.times.getD i 0)),
       Vec3.y (tr.positions.getD i (0, 0, 0)) +
        (Vec3.y (tr.positions.getD (i + 1) (0, 0, 0))
          - Vec3.y (tr.positions.getD i (0, 0, 0))) *
          ((t - tr.times.getD i 0)
            / (tr.times.getD (i + 1) 0 - tr.times.getD i 0)),
       Vec3.z (tr.positions.getD i (0, 0, 0)) +
        (Vec3.z (tr.positions.getD (i + 1) (0, 0, 0))
          - Vec3.z (tr.positions.getD i (0, 0, 0))) *
          ((t - tr.times.getD i 0)
            / (tr.times.getD (i + 1) 0 - tr.times.getD i 0))) := by
  have hne : tr.times ≠ [] := by
    intro h
    rw [h] at hi
    simp at hi
  have hth : ¬ t ≤ tr.times.headD 0 := by
    push_neg
    rw [headD_eq_getD _ _ hne]
    exact lt_of_le_of_lt
      (chain'_lt_getD_mono _ hchain 0 i 0 (Nat.zero_le _) (by omega)) hlo
  have hlast : ¬ tr.times.getLastD 0 ≤ t := by
    push_neg
    rw [getLastD_eq_getD _ _ hne]
    exact lt_of_lt_of_le hhi
      (chain'_lt_getD_mono _ hchain (i + 1) (tr.times.length - 1) 0 (by omega)
        (by omega))
  unfold Trajectory.sample_position_at
  rw [if_neg hth, if_neg hlast]
  have hknot : ∀ (f : Vec3 → ℚ),
      npInterp t (tr.times.zip (tr.positions.map f)) =
        f (tr.positions.getD i (0, 0, 0)) +
          (f (tr.positions.getD (i + 1) (0, 0, 0))
            - f (tr.positions.getD i (0, 0, 0))) *
            ((t - tr.times.getD i 0)
              / (tr.times.getD (i + 1) 0 - tr.times.getD i 0)) := by
    intro f
    have hflen : tr.times.length = (tr.positions.map f).length := by
      rw [List.length_map]
      exact hlen
    have hzi := getD_zip' tr.times (tr.positions.map f) i (by omega)
      (by rw [← hflen]; omega) (0, 0) 0 0
    have hzj := getD_zip' tr.times (tr.positions.map f) (i + 1) (by omega)
      (by rw [← hflen]; omega) (0, 0) 0 0
    rw [npInterp_segment t i _ (0, 0)
      (chain'_zip_fst _ _ hchain (le_of_eq hflen))
      (by rw [List.length_zip, ← hflen, min_self]; omega)
      (by rw [hzi]; exact hlo) (by rw [hzj]; exact le_of_lt hhi),
      hzi, hzj, getD_map' f tr.positions i (by omega) 0 (0, 0, 0),
      getD_map' f tr.positions (i + 1) (by omega) 0 (0, 0, 0)]
  rw [Trajectory.xKnots, Trajectory.yKnots, Trajectory.zKnots,
    hknot Vec3.x, hknot Vec3.y, hknot Vec3.z]

theorem l1Norm_normLike : IsNormLike l1Norm := by
  constructor
  · intro v
    unfold l1Norm
    have h1 := abs_nonneg v.1
    have h2 := abs_nonneg v.2.1
    have h3 := abs_nonneg v.2.2
    linarith
  · intro v
    obtain ⟨a, b, c⟩ := v
    unfold l1Norm
    constructor
    · intro h
      simp only at h
      have h1 := abs_nonneg a
      have h2 := abs_nonneg b
      have h3 := abs_nonneg c
      have ha : |a| = 0 := by linarith
      have hb : |b| = 0 := by linarith
      have hc : |c| = 0 := by linarith
      rw [abs_eq_zero] at ha hb hc
      rw [ha, hb, hc]
    · intro h
      injection h with h1 h23
      injection h23 with h2 h3
      rw [h1, h2, h3]
      norm_num

/-- Window-derived timing of a two-waypoint path: whether or not the two
waypoints coincide, the assigned times are exactly the window's
endpoints. -/
theorem compute_times_two (segNorm : Vec3 → ℚ) (hnorm : IsNormLike segNorm)
    (p1 p2 : Vec3) (S T : ℚ) (hT : 0 < T) :
    compute_times_from_window segNorm [p1, p2] (S, S + T) none
      = some [S, S + T] := by
  unfold compute_times_from_window
  have hsd : segDiffs [p1, p2] = [Vec3.sub p2 p1] := rfl
  rw [hsd]
  have hdne : ¬ ((S, S + T).2 - (S, S + T).1 ≤ 0) := by
    simp only
    linarith
  rw [if_neg hdne]
  have hsum : (List.map segNorm [Vec3.sub p2 p1]).sum
      = segNorm (Vec3.sub p2 p1) := by
    rw [List.map_singleton, List.sum_singleton]
  by_cases htot : (List.map segNorm [Vec3.sub p2 p1]).sum ≤ 0
  · rw [if_pos htot]
    have hlen2 : ([p1, p2] : List Vec3).length = 2 := rfl
    rw [hlen2]
    simp only
    rw [linspace_two]
  · rw [if_neg htot]
    rw [hsum] at htot
    have hL : 0 < segNorm (Vec3.sub p2 p1) := not_le.mp htot
    simp only [List.map_cons, List.map_nil, List.sum_cons, List.sum_nil]
    norm_num [List.scanl_cons, List.scanl_nil, div_self (ne_of_gt hL)]

/-- Building a two-waypoint trajectory in window-derived mode always
succeeds for a positive-duration window and assigns the window endpoints
as the two times. -/
theorem interpolate_two_waypoint_window (segNorm : Vec3 → ℚ)
    (hnorm : IsNormLike segNorm) (w1 w2 : Waypoint) (S T : ℚ)
    (h1 : w1.t = none) (h2 : w2.t = none) (hT : 0 < T) (fid : String) :
    interpolate_from_waypoints segNorm [w1, w2] "linear"
        (some (S, S + T)) none fid
      = some ⟨[S, S + T], waypoints_to_positions [w1, w2], fid⟩ := by
  unfold interpolate_from_waypoints
  rw [if_neg (by simp : ¬ ("linear" : String) ≠ "linear"),
    if_neg (by simp : ¬ ([w1, w2] : List Waypoint).length < 2)]
  have hany : ¬ (([w1, w2] : List Waypoint).any (fun wp => wp.t.isSome)
      = true) := by
    simp [h1, h2]
  rw [if_neg hany]
  have hp : waypoints_to_positions [w1, w2]
      = [(w1.x, w1.y, w1.z.getD 0), (w2.x, w2.y, w2.z.getD 0)] := rfl
  simp only
  rw [hp, compute_times_two segNorm hnorm _ _ S T hT]
  have hsi : strictlyIncreasing [S, S + T] = true := by
    have : strictlyIncreasing [S, S + T]
        = (decide (S < S + T) && strictlyIncreasing [S + T]) := rfl
    rw [this]
    have hlt : S < S + T := by linarith
    simp [hlt, strictlyIncreasing]
  have hmk : Trajectory.mk? [S, S + T]
      [(w1.x, w1.y, w1.z.getD 0), (w2.x, w2.y, w2.z.getD 0)] fid
      = some ⟨[S, S + T],
          [(w1.x, w1.y, w1.z.getD 0), (w2.x, w2.y, w2.z.getD 0)], fid⟩ := by
    unfold Trajectory.mk?
    rw [if_pos ⟨rfl, hsi⟩]
  show Trajectory.mk? [S, S + T]
      [(w1.x, w1.y, w1.z.getD 0), (w2.x, w2.y, w2.z.getD 0)] fid = _
  rw [hmk]

/-- Claim C5 — `sample_position_at` clamps to the first recorded
position at or before `t0` and to the last at or after `t1`; strictly
inside a segment it is the componentwise linear interpolation against
the time sequence; and a two-waypoint straight path built in
window-derived mode over `[S, S+T]` sampled at `S + T/2` returns the
geometric midpoint of the two waypoints. -/
theorem sample_position_at_clamp_interp_spec (tr : Trajectory)
    (hlen : tr.times.length = tr.positions.length)
    (hchain : tr.times.Chain' (· < ·)) (hne : tr.times ≠ []) :
    (∀ t, t ≤ tr.times.headD 0 →
      tr.sample_position_at t = tr.positions.headD (0, 0, 0)) ∧
    (∀ t, tr.times.getLastD 0 ≤ t →
      tr.sample_position_at t = tr.positions.getLastD (0, 0, 0)) ∧
    (∀ i t, i + 1 < tr.times.length →
      tr.times.getD i 0 < t → t < tr.times.getD (i + 1) 0 →
      tr.sample_position_at t =
        (Vec3.x (tr.positions.getD i (0, 0, 0)) +
          (Vec3.x (tr.positions.getD (i + 1) (0, 0, 0))
            - Vec3.x (tr.positions.getD i (0, 0, 0))) *
            ((t - tr.times.getD i 0)
              / (tr.times.getD (i + 1) 0 - tr.times.getD i 0)),
         Vec3.y (tr.positions.getD i (0, 0, 0)) +
          (Vec3.y (tr.positions.getD (i + 1) (0, 0, 0))
            - Vec3.y (tr.positions.getD i (0, 0, 0))) *
            ((t - tr.times.getD i 0)
              / (tr.times.getD (i + 1) 0 - tr.times.getD i 0)),
         Vec3.z (tr.positions.getD i (0, 0, 0)) +
          (Vec3.z (tr.positions.getD (i + 1) (0, 0, 0))
            - Vec3.z (tr.positions.getD i (0, 0, 0))) *
            ((t - tr.times.getD i 0)
              / (tr.times.getD (i + 1) 0 - tr.times.getD i 0)))) ∧
    (∀ (w1 w2 : Waypoint) (S T : ℚ) (segNorm : Vec3 → ℚ),
      IsNormLike segNorm → w1.t = none → w2.t = none → 0 < T →
      ∃ tr', interpolate_from_waypoints segNorm [w1, w2] "linear"
          (some (S, S + T)) none ("primary") = some tr' ∧
        tr'.sample_position_at (S + T / 2)
          = ((w1.x + w2.x) / 2, (w1.y + w2.y) / 2,
             (w1.z.getD 0 + w2.z.getD 0) / 2)) := by
  refine ⟨fun t ht => sample_position_at_le_head tr t ht,
    fun t ht => sample_position_at_ge_last tr hlen hchain hne t ht,
    fun i t hi hlo hhi =>
      sample_position_at_segment tr hlen hchain i t hi hlo hhi, ?_⟩
  intro w1 w2 S T segNorm hnorm h1 h2 hT
  refine ⟨⟨[S, S + T], waypoints_to_positions [w1, w2], "primary"⟩,
    interpolate_two_waypoint_window segNorm hnorm w1 w2 S T h1 h2 hT
      ("primary"), ?_⟩
  have hTne : T ≠ 0 := ne_of_gt hT
  have hseg := sample_position_at_segment
    ⟨[S, S + T], waypoints_to_positions [w1, w2], "primary"⟩
    (by rfl) (chain'_lt_pair S (S + T) (by linarith)) 0 (S + T / 2)
    (by simp) (by simp only [List.getD_cons_zero]; linarith)
    (by simp only [List.getD_cons_succ, List.getD_cons_zero]; linarith)
  rw [hseg]
  simp only [waypoints_to_positions, List.map_cons, List.map_nil,
    List.getD_cons_zero, List.getD_cons_succ, Vec3.x, Vec3.y, Vec3.z,
    Prod.mk.injEq]
  refine ⟨?_, ?_, ?_⟩ <;> (field_simp; ring)

/-- Witness for C5: the straight path `(0,0) → (2,0)` over `[0, 10]`
sampled at the midpoint time `5` returns the geometric midpoint
`(1, 0, 0)`. -/
theorem sample_position_at_clamp_interp_spec_witness :
    ∃ tr', interpolate_from_waypoints l1Norm
        [⟨0, 0, none, none, none⟩, ⟨2, 0, none, none, none⟩] "linear"
        (some (0, 0 + 10)) none ("primary") = some tr' ∧
      tr'.sample_position_at (0 + 10 / 2)
        = ((0 + 2) / 2, (0 + 0) / 2, (0 + 0) / 2) := by
  have h := sample_position_at_clamp_interp_spec sampleTraj (by decide)
    (chain'_lt_pair 0 1 (by norm_num)) (by decide)
  exact h.2.2.2 ⟨0, 0, none, none, none⟩ ⟨2, 0, none, none, none⟩ 0 10
    l1Norm l1Norm_normLike rfl rfl (by norm_num)

theorem strictlyIncreasing_iff_chain' :
    ∀ l : List ℚ, strictlyIncreasing l = true ↔ l.Chain' (· < ·) := by
  intro l
  induction l with
  | nil => simp [strictlyIncreasing]
  | cons a l ih =>
    cases l with
    | nil => simp [strictlyIncreasing]
    | cons b r =>
      have hstep : strictlyIncreasing (a :: b :: r)
          = (decide (a < b) && strictlyIncreasing (b :: r)) := rfl
      rw [hstep, List.chain'_cons, Bool.and_eq_true, decide_eq_true_eq, ih]

theorem vec3_sub_eq_zero (p q : Vec3) :
    Vec3.sub q p = (((0 : ℚ), (0 : ℚ), (0 : ℚ)) : Vec3) ↔ q = p := by
  obtain ⟨a1, a2, a3⟩ := p
  obtain ⟨b1, b2, b3⟩ := q
  unfold Vec3.sub
  simp only [Prod.mk.injEq]
  constructor
  · rintro ⟨h1, h2, h3⟩
    exact ⟨by linarith, by linarith, by linarith⟩
  · rintro ⟨h1, h2, h3⟩
    exact ⟨by linarith, by linarith, by linarith⟩

/-- Positivity of every segment length is equivalent to consecutive
waypoint positions being pairwise distinct. -/
theorem seg_pos_iff_chain_ne (segNorm : Vec3 → ℚ) (hnorm : IsNormLike segNorm)
    (positions : List Vec3) :
    (∀ x ∈ (segDiffs positions).map segNorm, 0 < x)
      ↔ positions.Chain' (· ≠ ·) := by
  rw [chain'_iff_forall_zip_tail]
  constructor
  · intro h pq hpq heq
    have hmem : Vec3.sub pq.2 pq.1 ∈ segDiffs positions := by
      rw [segDiffs]
      exact List.mem_map_of_mem _ hpq
    have hpos := h (segNorm (Vec3.sub pq.2 pq.1))
      (List.mem_map_of_mem _ hmem)
    have hzero : segNorm (Vec3.sub pq.2 pq.1) = 0 :=
      (hnorm.2 _).mpr ((vec3_sub_eq_zero pq.1 pq.2).mpr heq.symm)
    rw [hzero] at hpos
    exact lt_irrefl _ hpos
  · intro h x hx
    rw [List.mem_map] at hx
    obtain ⟨v, hv, hvx⟩ := hx
    rw [segDiffs, List.mem_map] at hv
    obtain ⟨pq, hpq, hpqv⟩ := hv
    have hne : pq.1 ≠ pq.2 := h pq hpq
    have hvne : v ≠ ((0 : ℚ), (0 : ℚ), (0 : ℚ)) := by
      rw [← hpqv]
      intro h0
      exact hne ((vec3_sub_eq_zero pq.1 pq.2).mp h0).symm
    have h0le := hnorm.1 v
    rcases lt_or_eq_of_le h0le with hlt | heq0
    · rw [← hvx]; exact hlt
    · exact absurd ((hnorm.2 v).mp heq0.symm) hvne

/-- Length bookkeeping for window-derived times. -/
theorem window_times_length (segNorm : Vec3 → ℚ) (positions : List Vec3)
    (hpos : 1 ≤ positions.length) (total S dur : ℚ) :
    (((List.scanl (· + ·) 0 ((segDiffs positions).map segNorm)).map
        (· / total)).map (fun f => S + f * dur)).length
      = positions.length := by
  rw [List.length_map, List.length_map, List.length_scanl, List.length_map,
    segDiffs, List.length_map, List.length_zip, List.length_tail]
  omega

/-- `compute_times_from_window` in the positive-total-distance path:
speed gate then proportional times. -/
theorem compute_times_pos_total (segNorm : Vec3 → ℚ)
    (positions : List Vec3) (S E : ℚ) (hdur : 0 < E - S) (ms : Option ℚ)
    (htot : ¬ ((segDiffs positions).map segNorm).sum ≤ 0) :
    compute_times_from_window segNorm positions (S, E) ms =
      if (match ms with
          | some m => decide (((segDiffs positions).map segNorm).sum / (E - S)
              ≤ m + 1 / 1000000)
          | none => true) = true
      then some (((List.scanl (· + ·) 0
          ((segDiffs positions).map segNorm)).map
            (· / ((segDiffs positions).map segNorm).sum)).map
          (fun f => S + f * (E - S)))
      else none := by
  unfold compute_times_from_window
  have hdne : ¬ ((S, E).2 - (S, E).1 ≤ 0) := by
    simp only
    linarith
  rw [if_neg hdne, if_neg htot]

/-- Strict increase of the window-derived times is equivalent to
consecutive waypoint positions being pairwise distinct. -/
theorem window_times_strict_iff (segNorm : Vec3 → ℚ)
    (hnorm : IsNormLike segNorm) (positions : List Vec3) (S E : ℚ)
    (hdur : 0 < E - S)
    (htot : 0 < ((segDiffs positions).map segNorm).sum) :
    (strictlyIncreasing (((List.scanl (· + ·) 0
        ((segDiffs positions).map segNorm)).map
          (· / ((segDiffs positions).map segNorm).sum)).map
        (fun f => S + f * (E - S))) = true)
      ↔ positions.Chain' (· ≠ ·) := by
  rw [strictlyIncreasing_iff_chain', List.map_map]
  rw [List.chain'_map]
  have hiff : ∀ a b : ℚ,
      ((fun f => S + f * (E - S)) ((· / ((segDiffs positions).map segNorm).sum) a)
        < (fun f => S + f * (E - S)) ((· / ((segDiffs positions).map segNorm).sum) b))
      ↔ a < b := by
    intro a b
    simp only [Function.comp]
    constructor
    · intro h
      have h2 : a / ((segDiffs positions).map segNorm).sum
          < b / ((segDiffs positions).map segNorm).sum := by
        by_contra hcon
        push_neg at hcon
        have := mul_le_mul_of_nonneg_right hcon (le_of_lt hdur)
        linarith
      exact (div_lt_div_iff_of_pos_right htot).mp h2
    · intro h
      have h2 := (div_lt_div_iff_of_pos_right htot).mpr h
      nlinarith
  constructor
  · intro h
    rw [← seg_pos_iff_chain_ne segNorm hnorm, ← chain'_lt_scanl_iff _ 0]
    exact h.imp (fun a b hab => (hiff a b).mp hab)
  · intro h
    rw [← seg_pos_iff_chain_ne segNorm hnorm, ← chain'_lt_scanl_iff _ 0] at h
    exact h.imp (fun a b hab => (hiff a b).mpr hab)

/-- Reduction of `interpolate_from_waypoints` to the window branch when
no waypoint carries a time. -/
theorem interpolate_window_reduce (segNorm : Vec3 → ℚ)
    (waypoints : List Waypoint) (hlen : 2 ≤ waypoints.length)
    (ht : ∀ wp ∈ waypoints, wp.t = none) (mw : ℚ × ℚ) (ms : Option ℚ)
    (fid : String) :
    interpolate_from_waypoints segNorm waypoints "linear" (some mw) ms fid
      = (match compute_times_from_window segNorm
            (waypoints_to_positions waypoints) mw ms with
        | none => none
        | some times =>
          Trajectory.mk? times (waypoints_to_positions waypoints) fid) := by
  unfold interpolate_from_waypoints
  rw [if_neg (by simp : ¬ ("linear" : String) ≠ "linear"),
    if_neg (by omega : ¬ waypoints.length < 2)]
  have hany : waypoints.any (fun wp => wp.t.isSome) = false := by
    rw [List.any_eq_false]
    intro wp hwp
    rw [ht wp hwp]
    simp
  rw [hany]
  rfl

/-- Claim C6 — when every waypoint carries a timestamp,
`interpolate_from_waypoints` returns the trajectory whose time sequence
is exactly those timestamps, and neither the mission window nor the
speed constraint is consulted: the result is one fixed expression
independent of both. -/
theorem interpolate_absolute_time_spec (segNorm : Vec3 → ℚ)
    (waypoints : List Waypoint) (hlen : 2 ≤ waypoints.length)
    (ht : ∀ wp ∈ waypoints, wp.t.isSome = true)
    (mw : Option (ℚ × ℚ)) (ms : Option ℚ) (fid : String) :
    interpolate_from_waypoints segNorm waypoints "linear" mw ms fid
      = Trajectory.mk? (waypoints.map (fun wp => wp.t.getD 0))
          (waypoints_to_positions waypoints) fid := by
  unfold interpolate_from_waypoints
  rw [if_neg (by simp : ¬ ("linear" : String) ≠ "linear"),
    if_neg (by omega : ¬ waypoints.length < 2)]
  have hany : waypoints.any (fun wp => wp.t.isSome) = true := by
    rw [List.any_eq_true]
    obtain ⟨w, hw⟩ : ∃ w, w ∈ waypoints := by
      cases waypoints with
      | nil => simp at hlen
      | cons a l => exact ⟨a, List.mem_cons_self _ _⟩
    exact ⟨w, hw, ht w hw⟩
  rw [if_pos hany]
  have hall : waypoints.all (fun wp => wp.t.isSome) = true := by
    rw [List.all_eq_true]
    exact ht
  rw [if_neg (by simp [hall])]

/-- Witness for C6: the same timestamped list gives identical
trajectories for two different window/constraint arguments, with times
exactly `[0, 5]` — the waypoints' timestamps. -/
theorem interpolate_absolute_time_spec_witness :
    interpolate_from_waypoints l1Norm timedWaypoints "linear"
        (some (100, 200)) (some 1) ("primary")
      = interpolate_from_waypoints l1Norm timedWaypoints "linear" none none
        ("primary") ∧
    ∃ tr, interpolate_from_waypoints l1Norm timedWaypoints "linear"
        (some (100, 200)) (some 1) ("primary") = some tr ∧
      tr.times = [0, 5] := by
  have h1 := interpolate_absolute_time_spec l1Norm timedWaypoints
    (by decide) (by decide) (some (100, 200)) (some 1) ("primary")
  have h2 := interpolate_absolute_time_spec l1Norm timedWaypoints
    (by decide) (by decide) none none ("primary")
  refine ⟨by rw [h1, h2], ⟨[0, 5], [(0, 0, 0), (1, 0, 0)], "primary"⟩,
    ?_, rfl⟩
  rw [h1]
  decide

/-- Counterexample to C7 as stated: a duplicated first waypoint with
required speed 1 m/s well under the 1000 m/s cap still makes
construction fail (the proportional times repeat and violate the
strictly-increasing check), so ‹fails iff speed exceeds the cap› is
false. On this axis-aligned input `l1Norm` coincides with the Euclidean
segment norm (`0` and `1`). -/
theorem interpolate_speed_ok_still_fails_cex :
    ((segDiffs (waypoints_to_positions dupWaypoints)).map l1Norm).sum
        / (1 - 0) ≤ 1000 + 1 / 1000000 ∧
    interpolate_from_waypoints l1Norm dupWaypoints "linear" (some (0, 1))
      (some 1000) ("primary") = none := by
  decide

/-- Claim C7 (amended) — in window-derived mode with a speed cap and
positive total path length, construction fails iff the required average
speed exceeds the cap plus the `1e-6` tolerance **or** some pair of
consecutive waypoints coincide (which collapses two assigned times); it
succeeds when the speed is within the cap and consecutive waypoints are
pairwise distinct. -/
theorem interpolate_window_speed_spec (segNorm : Vec3 → ℚ)
    (hnorm : IsNormLike segNorm) (waypoints : List Waypoint)
    (hlen : 2 ≤ waypoints.length) (ht : ∀ wp ∈ waypoints, wp.t = none)
    (S E m : ℚ) (hdur : 0 < E - S) (fid : String)
    (htot : 0 < ((segDiffs (waypoints_to_positions waypoints)).map
      segNorm).sum) :
    (interpolate_from_waypoints segNorm waypoints "linear" (some (S, E))
        (some m) fid = none
      ↔ (m + 1 / 1000000
            < ((segDiffs (waypoints_to_positions waypoints)).map
                segNorm).sum / (E - S)
          ∨ ¬ (waypoints_to_positions waypoints).Chain' (· ≠ ·))) := by
  rw [interpolate_window_reduce segNorm waypoints hlen ht (S, E) (some m) fid,
    compute_times_pos_total segNorm _ S E hdur (some m) (not_le.mpr htot)]
  set L := ((segDiffs (waypoints_to_positions waypoints)).map segNorm).sum
    with hL
  set tms := ((List.scanl (· + ·) 0
      ((segDiffs (waypoints_to_positions waypoints)).map segNorm)).map
        (· / L)).map (fun f => S + f * (E - S)) with htms
  by_cases hspeed : m + 1 / 1000000 < L / (E - S)
  · rw [if_neg (show ¬ ((match (some m : Option ℚ) with
        | some m2 => decide (L / (E - S) ≤ m2 + 1 / 1000000)
        | none => true) = true) from by
      simp only [decide_eq_true_eq]
      exact not_le.mpr hspeed)]
    exact iff_of_true rfl (Or.inl hspeed)
  · push_neg at hspeed
    rw [if_pos (show ((match (some m : Option ℚ) with
        | some m2 => decide (L / (E - S) ≤ m2 + 1 / 1000000)
        | none => true) = true) from by
      simp only [decide_eq_true_eq]
      exact hspeed)]
    have hpos1 : 1 ≤ (waypoints_to_positions waypoints).length := by
      rw [waypoints_to_positions, List.length_map]
      omega
    have hlens : tms.length = (waypoints_to_positions waypoints).length := by
      rw [htms, hL]
      exact window_times_length segNorm _ hpos1 _ S (E - S)
    have hiffc := window_times_strict_iff segNorm hnorm
      (waypoints_to_positions waypoints) S E hdur htot
    rw [← hL, ← htms] at hiffc
    show Trajectory.mk? tms (waypoints_to_positions waypoints) fid = none ↔ _
    by_cases hstrict : strictlyIncreasing tms = true
    · unfold Trajectory.mk?
      rw [if_pos ⟨hlens, hstrict⟩]
      have hchain := hiffc.mp hstrict
      refine iff_of_false (by simp) ?_
      rintro (h | h)
      · exact absurd h (not_lt.mpr hspeed)
      · exact h hchain
    · unfold Trajectory.mk?
      rw [if_neg (fun hand => hstrict hand.2)]
      exact iff_of_true rfl (Or.inr (fun hc => hstrict (hiffc.mpr hc)))

/-- Witness for C7 (amended): the duplicated-waypoint list fails despite
an ample speed cap, while the clean straight path under the same cap
succeeds. -/
theorem interpolate_window_speed_spec_witness :
    interpolate_from_waypoints l1Norm dupWaypoints "linear" (some (0, 1))
        (some 1000) ("primary") = none ∧
    interpolate_from_waypoints l1Norm straightWaypoints "linear"
        (some (0, 1)) (some 1000) ("primary") ≠ none := by
  have h1 := interpolate_window_speed_spec l1Norm l1Norm_normLike
    dupWaypoints (by decide) (by decide) 0 1 1000 (by norm_num) ("primary")
    (by decide)
  have h2 := interpolate_window_speed_spec l1Norm l1Norm_normLike
    straightWaypoints (by decide) (by decide) 0 1 1000 (by norm_num)
    ("primary") (by decide)
  constructor
  · refine h1.mpr (Or.inr ?_)
    intro hc
    exact absurd rfl (List.chain'_cons.mp hc).1
  · intro hn
    rcases h2.mp hn with hsp | hch
    · revert hsp
      decide
    · exact hch (List.chain'_cons.mpr ⟨by decide, List.chain'_singleton _⟩)

/-- Claim C10 — in window-derived mode a zero-length interior segment
(consecutive coincident waypoints) with positive total path length makes
construction fail for any speed argument, because the proportional
times repeat and violate the strictly-increasing invariant; only the
all-waypoints-coincide case (total length zero) falls back to evenly
spaced times and succeeds. -/
theorem interpolate_window_degenerate_spec (segNorm : Vec3 → ℚ)
    (hnorm : IsNormLike segNorm) (waypoints : List Waypoint)
    (hlen : 2 ≤ waypoints.length) (ht : ∀ wp ∈ waypoints, wp.t = none)
    (S E : ℚ) (hdur : 0 < E - S) (ms : Option ℚ) (fid : String) :
    ((¬ (waypoints_to_positions waypoints).Chain' (· ≠ ·)) →
      0 < ((segDiffs (waypoints_to_positions waypoints)).map segNorm).sum →
      interpolate_from_waypoints segNorm waypoints "linear" (some (S, E))
        ms fid = none) ∧
    (((segDiffs (waypoints_to_positions waypoints)).map segNorm).sum = 0 →
      ∃ tr, interpolate_from_waypoints segNorm waypoints "linear"
          (some (S, E)) ms fid = some tr ∧
        tr.times = linspace S E waypoints.length ∧
        tr.positions = waypoints_to_positions waypoints) := by
  constructor
  · intro hnchain htot
    rw [interpolate_window_reduce segNorm waypoints hlen ht (S, E) ms fid,
      compute_times_pos_total segNorm _ S E hdur ms (not_le.mpr htot)]
    set L := ((segDiffs (waypoints_to_positions waypoints)).map segNorm).sum
      with hL
    set tms := ((List.scanl (· + ·) 0
        ((segDiffs (waypoints_to_positions waypoints)).map segNorm)).map
          (· / L)).map (fun f => S + f * (E - S)) with htms
    have hiffc := window_times_strict_iff segNorm hnorm
      (waypoints_to_positions waypoints) S E hdur htot
    rw [← hL, ← htms] at hiffc
    by_cases hok : (match ms with
        | some m => decide (L / (E - S) ≤ m + 1 / 1000000)
        | none => true) = true
    · rw [if_pos hok]
      show Trajectory.mk? tms (waypoints_to_positions waypoints) fid = none
      unfold Trajectory.mk?
      rw [if_neg (fun hand => (fun hs => hnchain (hiffc.mp hs)) hand.2)]
    · rw [if_neg hok]
  · intro htot
    rw [interpolate_window_reduce segNorm waypoints hlen ht (S, E) ms fid]
    have hct : compute_times_from_window segNorm
        (waypoints_to_positions waypoints) (S, E) ms
        = some (linspace S E (waypoints_to_positions waypoints).length) := by
      unfold compute_times_from_window
      rw [if_neg (by simp only; linarith :
        ¬ ((S, E).2 - (S, E).1 ≤ 0)), if_pos (le_of_eq htot)]
    rw [hct]
    have hplen : (waypoints_to_positions waypoints).length
        = waypoints.length := by
      rw [waypoints_to_positions, List.length_map]
    have hstrict : strictlyIncreasing
        (linspace S E (waypoints_to_positions waypoints).length) = true :=
      (strictlyIncreasing_iff_chain' _).mpr
        (linspace_chain' S E (by linarith) _)
    refine ⟨⟨linspace S E (waypoints_to_positions waypoints).length,
      waypoints_to_positions waypoints, fid⟩, ?_, by rw [hplen], rfl⟩
    show Trajectory.mk?
        (linspace S E (waypoints_to_positions waypoints).length)
        (waypoints_to_positions waypoints) fid = _
    unfold Trajectory.mk?
    rw [if_pos ⟨by rw [linspace_length], hstrict⟩]

/-- Witness for C10: the duplicated-waypoint list (positive total
length) fails, while the all-coincident list succeeds with evenly
spaced times. -/
theorem interpolate_window_degenerate_spec_witness :
    interpolate_from_waypoints l1Norm dupWaypoints "linear" (some (0, 1))
        (some 5) ("primary") = none ∧
    ∃ tr, interpolate_from_waypoints l1Norm coincidentWaypoints "linear"
        (some (0, 1)) none ("primary") = some tr ∧
      tr.times = linspace 0 1 coincidentWaypoints.length ∧
      tr.positions = waypoints_to_positions coincidentWaypoints := by
  constructor
  · refine (interpolate_window_degenerate_spec l1Norm l1Norm_normLike
      dupWaypoints (by decide) (by decide) 0 1 (by norm_num) (some 5)
      ("primary")).1 ?_ (by decide)
    intro hc
    exact absurd rfl (List.chain'_cons.mp hc).1
  · exact (interpolate_window_degenerate_spec l1Norm l1Norm_normLike
      coincidentWaypoints (by decide) (by decide) 0 1 (by norm_num) none
      ("primary")).2 (by decide)

theorem headD_mem {α : Type} (l : List α) (d : α) (h : l ≠ []) :
    l.headD d ∈ l := by
  cases l with
  | nil => exact absurd rfl h
  | cons a l => exact List.mem_cons_self _ _

theorem getD_mem {α : Type} (l : List α) (i : ℕ) (d : α) (h : i < l.length) :
    l.getD i d ∈ l := by
  rw [List.getD_eq_getElem _ _ h]
  exact List.getElem_mem h

/-- `sample_uniform` at the fixed 1-second resolution of the spatial
checker always succeeds on a proper time range and returns
`uniformGrid1`. -/
theorem sample_uniform_one (tr : Trajectory)
    (hrange : tr.times.headD 0 < tr.times.getLastD 0) :
    tr.sample_uniform 1 = some (uniformGrid1 tr,
      (uniformGrid1 tr).map (fun t =>
        (npInterp t tr.xKnots, npInterp t tr.yKnots, npInterp t tr.zKnots))) := by
  simp only [Trajectory.sample_uniform, uniformGrid1]
  rw [if_neg (by norm_num : ¬ (1 : ℚ) ≤ 0), if_neg (not_le.mpr hrange)]

/-- Claim C8 — `check_spatial_conflict` samples both trajectories on a
uniform 1-second grid, compares at the union of the two grids (every
instant of either grid, not the intersection), resamples both via
`sample_position_at` at every union instant, minimizes the planar
(x, y) squared distance, reports the minimizing instant identically for
both sides together with both planar positions there, and raises the
flag exactly when the minimum distance is strictly below the buffer
(squared rendering). -/
theorem check_spatial_conflict_spec (traj_A traj_B : Trajectory)
    (hA : traj_A.times.headD 0 < traj_A.times.getLastD 0)
    (hB : traj_B.times.headD 0 < traj_B.times.getLastD 0)
    (buffer_m : ℚ) (use_3d : Bool) :
    ∃ flag d,
      check_spatial_conflict traj_A traj_B buffer_m use_3d
        = some (flag, d) ∧
      (∃ gA pA, traj_A.sample_uniform 1 = some (gA, pA) ∧
       ∃ gB pB, traj_B.sample_uniform 1 = some (gB, pB) ∧
        (∀ t, t ∈ commonTimes traj_A traj_B ↔ t ∈ gA ∨ t ∈ gB)) ∧
      d.t_A_at_min = d.t_B_at_min ∧
      d.t_A_at_min ∈ commonTimes traj_A traj_B ∧
      d.min_distance2 = planarDist2 traj_A traj_B d.t_A_at_min ∧
      (∀ t ∈ commonTimes traj_A traj_B,
        d.min_distance2 ≤ planarDist2 traj_A traj_B t) ∧
      (d.min_position_A = planarAt traj_A d.t_A_at_min ∧
        d.min_position_B = planarAt traj_B d.t_B_at_min) ∧
      (flag = true ↔ (0 < buffer_m ∧ d.min_distance2 < buffer_m ^ 2)) ∧
      d.conflict_detected = flag := by
  have hsuA := sample_uniform_one traj_A hA
  have hsuB := sample_uniform_one traj_B hB
  set ct := commonTimes traj_A traj_B with hct
  set pA2 := ct.map (fun t =>
    ((traj_A.sample_position_at t).1,
     (traj_A.sample_position_at t).2.1)) with hpA2
  set pB2 := ct.map (fun t =>
    ((traj_B.sample_position_at t).1,
     (traj_B.sample_position_at t).2.1)) with hpB2
  set d2s := (pA2.zip pB2).map (fun pq =>
    (pq.1.1 - pq.2.1) ^ 2 + (pq.1.2 - pq.2.2) ^ 2) with hd2s
  set idx := argminIdx d2s with hidx
  have hc : check_spatial_conflict traj_A traj_B buffer_m use_3d = some
      (decide (0 < buffer_m ∧ listMin d2s < buffer_m ^ 2),
       { min_distance2 := listMin d2s
         min_position_A := pA2.getD idx (0, 0)
         min_position_B := pB2.getD idx (0, 0)
         t_A_at_min := ct.getD idx 0
         t_B_at_min := ct.getD idx 0
         conflict_detected :=
           decide (0 < buffer_m ∧ listMin d2s < buffer_m ^ 2) }) := by
    unfold check_spatial_conflict
    rw [hsuA, hsuB]
    rfl
  have hctne : ct ≠ [] := by
    have hgne : uniformGrid1 traj_A ≠ [] := by
      unfold uniformGrid1
      exact linspace_ne_nil _ _ _ (by omega)
    have : (uniformGrid1 traj_A).headD 0 ∈ ct :=
      (mem_union1d _ _ _).mpr (Or.inl (headD_mem _ _ hgne))
    exact List.ne_nil_of_mem this
  have hlenA : pA2.length = ct.length := by rw [hpA2, List.length_map]
  have hlenB : pB2.length = ct.length := by rw [hpB2, List.length_map]
  have hlend : d2s.length = ct.length := by
    rw [hd2s, List.length_map, List.length_zip, hlenA, hlenB, min_self]
  have hd2sne : d2s ≠ [] := by
    intro h
    rw [h] at hlend
    exact hctne (List.eq_nil_of_length_eq_zero hlend.symm)
  obtain ⟨hidxlt, hgetmin⟩ := argminIdx_spec d2s hd2sne
  rw [← hidx] at hidxlt hgetmin
  have hidxct : idx < ct.length := by rw [← hlend]; exact hidxlt
  have hmap : d2s = ct.map (planarDist2 traj_A traj_B) := by
    rw [hd2s, hpA2, hpB2, List.zip_map', List.map_map]
    rfl
  have hplanmin : listMin d2s
      = planarDist2 traj_A traj_B (ct.getD idx 0) := by
    rw [← hgetmin, hmap,
      getD_map' (planarDist2 traj_A traj_B) ct idx hidxct 0 0]
  refine ⟨_, _, hc,
    ⟨_, _, hsuA, _, _, hsuB, fun t => mem_union1d _ _ t⟩,
    rfl, getD_mem ct idx 0 hidxct, hplanmin, ?_, ⟨?_, ?_⟩,
    by rw [decide_eq_true_eq], rfl⟩
  · intro t htmem
    have : planarDist2 traj_A traj_B t ∈ d2s := by
      rw [hmap]
      exact List.mem_map_of_mem _ htmem
    exact listMin_le d2s _ this
  · rw [hpA2, getD_map' (fun t =>
      ((traj_A.sample_position_at t).1, (traj_A.sample_position_at t).2.1))
      ct idx hidxct (0, 0) 0]
    rfl
  · rw [hpB2, getD_map' (fun t =>
      ((traj_B.sample_position_at t).1, (traj_B.sample_position_at t).2.1))
      ct idx hidxct (0, 0) 0]
    rfl

set_option maxRecDepth 8000 in
/-- Witness for C8: the primary path and its 3 m-offset parallel path
over the shared `[0,10]` window; the checker returns a result whose
minimizing instant is recorded identically on both sides and whose flag
tests the minimum squared distance (9) against the squared buffer. -/
theorem check_spatial_conflict_spec_witness :
    (∃ flag d, check_spatial_conflict primaryTraj offsetTraj 5 false
        = some (flag, d) ∧
      d.t_A_at_min = d.t_B_at_min ∧
      (flag = true ↔ (0 < (5 : ℚ) ∧ d.min_distance2 < 5 ^ 2))) ∧
    check_spatial_conflict primaryTraj offsetTraj 5 false
      = some (true, ⟨9, (0, 0), (0, 3), 0, 0, true⟩) := by
  obtain ⟨flag, d, hc, _, htAB, _, _, _, _, hflag, _⟩ :=
    check_spatial_conflict_spec primaryTraj offsetTraj (by decide)
      (by decide) 5 false
  exact ⟨⟨flag, d, hc, htAB, hflag⟩, by decide⟩

end UavDeconflict
